import Mathlib

/-!
Shallow embedding of the contextual hold-tap engine
(src/zmk/config/modules/dario/contextual-hold-tap/src/contextual_hold_tap.c and
contextual_hold_tap_listener.c) and of the QMK alternate-repeat ("magic") key
handler (src/qmk/users/dario/magic.c with the keymap-supplied mapping of
src/qmk/keyboards/lily58/rev1/keymaps/dario/keymap.c), together with theorems
settling the specification claims about them.

Conventions of the embedding:
* C `int64_t` timestamps and `int32_t` positions become `Int` (their values
  never approach the 64/32-bit bounds in any statement proved here).
* The Zephyr work queue is modelled by an explicit list of scheduled slot
  indices; timer expiry is an explicit operation.  In the single-threaded
  event-loop model `k_work_cancel_delayable` never reports `-EINPROGRESS`.
* `zmk_behavior_invoke_binding` (the action sink) is external; it is modelled
  as always succeeding (returning 0) and its calls are recorded in an
  invocation trace.
* Events bubbling past the hold-tap listeners are recorded in a `downstream`
  trace; a bubbled position event is then offered to the keymap, which may
  invoke the hold-tap behavior driver (this is how a new undecided hold-tap
  can appear while captured events are being replayed).
* The mutual recursion decide -> release_captured_events -> raise -> listener
  -> decide is bounded by an explicit fuel parameter; every theorem either
  quantifies over sufficient fuel or supplies a concrete amount.
-/

namespace CHT

/-- `enum flavor` of contextual_hold_tap.c. -/
inductive Flavor where
  | balanced
  | tapPreferred
  | holdPreferred
deriving DecidableEq, Repr

/-- `enum status` of contextual_hold_tap.c. -/
inductive Status where
  | undecided
  | tap
  | holdInterrupt
  | holdTimer
deriving DecidableEq, Repr

/-- `enum decision_moment` of contextual_hold_tap.c. -/
inductive DecisionMoment where
  | keyDown
  | keyUp
  | otherKeyDown
  | otherKeyUp
  | timerEvent
  | quickTap
deriving DecidableEq, Repr

/-- `struct behavior_contextual_hold_tap_config`.  Bindings are opaque to the
core; they are modelled by numeric identifiers.  The `*_len` fields of the C
struct are the lengths of the corresponding lists. -/
structure Config where
  tapping_term_ms : Int
  quick_tap_ms : Int
  require_prior_idle_ms : Int
  normal_flavor : Flavor
  after_flavor : Flavor
  hold_while_undecided : Bool
  hold_while_undecided_linger : Bool
  retro_tap : Bool
  hold_trigger_on_release : Bool
  hold_trigger_key_positions : List Int
  tap_bindings : List Nat
  hold_bindings : List Nat
  prior_keycodes : List Nat
  prior_timeout_ms : Int
deriving DecidableEq, Repr

/-- `#define CHT_POSITION_NOT_USED 9999` -/
def CHT_POSITION_NOT_USED : Int := 9999

/-- `struct active_hold_tap` (the `work` item is modelled in the engine state;
`source` is omitted: the split transport is out of scope). -/
structure ActiveHoldTap where
  position : Int
  timestamp : Int
  status : Status
  selected_flavor : Flavor
  config : Config
  work_is_cancelled : Bool
  position_of_first_other_key_pressed : Int
deriving DecidableEq, Repr

/-- `struct last_tapped`. -/
structure LastTapped where
  position : Int
  timestamp : Int
deriving DecidableEq, Repr

/-- `INT32_MIN`, the initial value of both fields of `last_tapped`. -/
def INT32_MIN : Int := -2147483648

/-- `static struct last_tapped last_tapped = {INT32_MIN, INT32_MIN};` -/
def initial_last_tapped : LastTapped := ⟨INT32_MIN, INT32_MIN⟩

/-- `store_last_tapped` (contextual_hold_tap.c lines 140-145). -/
def store_last_tapped (lt : LastTapped) (timestamp : Int) : LastTapped :=
  if timestamp > lt.timestamp then ⟨INT32_MIN, timestamp⟩ else lt

/-- `store_last_hold_tapped` (lines 147-150): unconditional overwrite. -/
def store_last_hold_tapped (ht : ActiveHoldTap) : LastTapped :=
  ⟨ht.position, ht.timestamp⟩

/-- `is_quick_tap` (lines 152-159). -/
def is_quick_tap (lt : LastTapped) (ht : ActiveHoldTap) : Bool :=
  if lt.timestamp + ht.config.require_prior_idle_ms > ht.timestamp then
    true
  else if lt.position = ht.position ∧
      lt.timestamp + ht.config.quick_tap_ms > ht.timestamp then
    true
  else
    false

/-- `struct zmk_position_state_changed` (fields used by the engine). -/
structure PositionEvent where
  position : Int
  state : Bool
  timestamp : Int
deriving DecidableEq, Repr

/-- `struct zmk_keycode_state_changed` (fields used by the engine). -/
structure KeycodeEvent where
  usage_page : Nat
  keycode : Nat
  state : Bool
  timestamp : Int
deriving DecidableEq, Repr

/-- ZMK `is_mod(usage_page, keycode)`: a keyboard-page usage in the
LEFTCONTROL..RIGHTGUI range (0xE0-0xE7); the keyboard usage page is 0x07. -/
def is_mod (usage_page keycode : Nat) : Bool :=
  usage_page = 7 ∧ 0xE0 ≤ keycode ∧ keycode ≤ 0xE7

/-- The payload of a `struct captured_event` with tag `ET_POS_CHANGED` or
`ET_CODE_CHANGED`; a slot with tag `ET_NONE` is modelled by `Option.none` in
the buffer. -/
inductive CapturedEvent where
  | posEv (ev : PositionEvent)
  | codeEv (ev : KeycodeEvent)
deriving DecidableEq, Repr

/-- `struct cht_last_key_info` (contextual_hold_tap_internal.h). -/
structure LastKeyInfo where
  keycode : Nat
  timestamp : Int
  valid : Bool
deriving DecidableEq, Repr

/-- One call of `zmk_behavior_invoke_binding`: the binding identifier and the
`zmk_behavior_binding_event` fields it carries. -/
structure Invocation where
  binding : Nat
  position : Int
  timestamp : Int
  pressed : Bool
deriving DecidableEq, Repr

/-- The module state of contextual_hold_tap.c plus the two observation traces
(invocations of the action sink, events bubbled downstream). -/
structure EngineState where
  undecided : Option Nat
  holdTaps : List ActiveHoldTap
  captured : List (Option CapturedEvent)
  last_tapped : LastTapped
  last_key : LastKeyInfo
  timers : List Nat
  invocations : List Invocation
  downstream : List CapturedEvent
deriving DecidableEq, Repr

/-- The keymap: which positions carry a contextual hold-tap behavior. -/
def Keymap : Type := Int → Option Config

/-- `capture_event`'s buffer scan: write into the first `ET_NONE` slot;
`none` result models the `-ENOMEM` return. -/
def captureList (buf : List (Option CapturedEvent)) (e : CapturedEvent) :
    Option (List (Option CapturedEvent)) :=
  match buf with
  | [] => none
  | none :: rest => some (some e :: rest)
  | some x :: rest => (captureList rest e).map (fun l => some x :: l)

/-- `capture_event` (lines 161-169); the `Int` is its return value
(`0` or `-ENOMEM = -12`). -/
def capture_event (s : EngineState) (e : CapturedEvent) : EngineState × Int :=
  match captureList s.captured e with
  | some buf => ({ s with captured := buf }, 0)
  | none => (s, -12)

/-- `have_captured_keydown_event` (lines 171-187): scan stops at the first
`ET_NONE` slot. -/
def haveCapturedKeydown (buf : List (Option CapturedEvent)) (position : Int) :
    Bool :=
  match buf with
  | [] => false
  | none :: _ => false
  | some (.posEv pe) :: rest =>
      if pe.position = position ∧ pe.state = true then true
      else haveCapturedKeydown rest position
  | some (.codeEv _) :: rest => haveCapturedKeydown rest position

/-- Append the invocations of `invoke_binding_set` (lines 234-243) to the
trace; the sink is modelled as always returning 0, so the whole list is
invoked in array order. -/
def invoke_binding_set (s : EngineState) (bindings : List Nat)
    (position timestamp : Int) (pressed : Bool) : EngineState :=
  { s with invocations := s.invocations ++
      bindings.map (fun b => ⟨b, position, timestamp, pressed⟩) }

/-- `press_hold_binding` (lines 245-256). -/
def press_hold_binding (s : EngineState) (ht : ActiveHoldTap) : EngineState :=
  invoke_binding_set s ht.config.hold_bindings ht.position ht.timestamp true

/-- `press_tap_binding` (lines 258-270): stores last-hold-tapped, then
invokes the tap bindings. -/
def press_tap_binding (s : EngineState) (ht : ActiveHoldTap) : EngineState :=
  invoke_binding_set { s with last_tapped := store_last_hold_tapped ht }
    ht.config.tap_bindings ht.position ht.timestamp true

/-- `release_hold_binding` (lines 272-283). -/
def release_hold_binding (s : EngineState) (ht : ActiveHoldTap) : EngineState :=
  invoke_binding_set s ht.config.hold_bindings ht.position ht.timestamp false

/-- `release_tap_binding` (lines 285-296). -/
def release_tap_binding (s : EngineState) (ht : ActiveHoldTap) : EngineState :=
  invoke_binding_set s ht.config.tap_bindings ht.position ht.timestamp false

/-- `press_binding` (lines 298-318), reading the current slot `i`. -/
def press_binding (s : EngineState) (i : Nat) : EngineState :=
  match s.holdTaps[i]? with
  | none => s
  | some ht =>
    if ht.config.retro_tap ∧ ht.status = .holdTimer then s
    else if ht.status = .holdTimer ∨ ht.status = .holdInterrupt then
      if ht.config.hold_while_undecided then s
      else press_hold_binding s ht
    else
      let s1 := if ht.config.hold_while_undecided ∧
          ht.config.hold_while_undecided_linger = false then
        release_hold_binding s ht
      else s
      press_tap_binding s1 ht

/-- `release_binding` (lines 320-330). -/
def release_binding (s : EngineState) (i : Nat) : EngineState :=
  match s.holdTaps[i]? with
  | none => s
  | some ht =>
    if ht.config.retro_tap ∧ ht.status = .holdTimer then s
    else if ht.status = .holdTimer ∨ ht.status = .holdInterrupt then
      release_hold_binding s ht
    else
      release_tap_binding s ht

/-- `is_first_other_key_pressed_trigger_key` (lines 332-340). -/
def is_first_other_key_pressed_trigger_key (ht : ActiveHoldTap) : Bool :=
  ht.config.hold_trigger_key_positions.contains
    ht.position_of_first_other_key_pressed

/-- `decide_positional_hold` (lines 343-363). -/
def decide_positional_hold (ht : ActiveHoldTap) : ActiveHoldTap :=
  if ¬ (ht.config.hold_trigger_key_positions.length > 0) then ht
  else if ht.position_of_first_other_key_pressed = -1 then ht
  else if is_first_other_key_pressed_trigger_key ht then ht
  else { ht with status := .tap }

/-- The flavor switch of `decide_hold_tap` (lines 382-434): the status
assigned out of UNDECIDED, or `none` when the moment does not decide for the
selected flavor. -/
def flavor_decision : Flavor → DecisionMoment → Option Status
  | .holdPreferred, .keyUp => some .tap
  | .holdPreferred, .otherKeyDown => some .holdInterrupt
  | .holdPreferred, .timerEvent => some .holdTimer
  | .holdPreferred, .quickTap => some .tap
  | .balanced, .keyUp => some .tap
  | .balanced, .otherKeyUp => some .holdInterrupt
  | .balanced, .timerEvent => some .holdTimer
  | .balanced, .quickTap => some .tap
  | .tapPreferred, .keyUp => some .tap
  | .tapPreferred, .timerEvent => some .holdTimer
  | .tapPreferred, .quickTap => some .tap
  | _, _ => none

/-- `find_hold_tap` (lines 478-485), returning the slot index. -/
def findSlot (taps : List ActiveHoldTap) (position : Int) : Option Nat :=
  match taps with
  | [] => none
  | ht :: rest =>
    if ht.position = position then some 0
    else (findSlot rest position).map (· + 1)

/-- `store_hold_tap` (lines 487-505): fill the first free slot
(`position == CHT_POSITION_NOT_USED`) and return the updated slot list with
the index; `none` models the capacity failure. -/
def storeSlot (taps : List ActiveHoldTap) (position timestamp : Int)
    (cfg : Config) : Option (List ActiveHoldTap × Nat) :=
  match taps with
  | [] => none
  | ht :: rest =>
    if ht.position = CHT_POSITION_NOT_USED then
      some ({ position := position, timestamp := timestamp,
              status := .undecided, selected_flavor := cfg.normal_flavor,
              config := cfg, work_is_cancelled := ht.work_is_cancelled,
              position_of_first_other_key_pressed := -1 } :: rest, 0)
    else (storeSlot rest position timestamp cfg).map
      (fun p => (ht :: p.1, p.2 + 1))

/-- The record stored for a fresh hold-tap (`store_hold_tap` fields, with
the selected flavor overwritten as in `on_hold_tap_binding_pressed`). -/
def freshHoldTap (position timestamp : Int) (cfg : Config) (fl : Flavor)
    (wc : Bool) : ActiveHoldTap :=
  { position := position, timestamp := timestamp, status := .undecided,
    selected_flavor := fl, config := cfg, work_is_cancelled := wc,
    position_of_first_other_key_pressed := -1 }

/-- `clear_hold_tap` (lines 507-512) applied to slot `i`. -/
def clear_hold_tap (s : EngineState) (i : Nat) : EngineState :=
  match s.holdTaps[i]? with
  | none => s
  | some ht =>
    let ht' : ActiveHoldTap :=
      { ht with position := CHT_POSITION_NOT_USED, status := .undecided,
                work_is_cancelled := false, selected_flavor := .balanced }
    { s with holdTaps := s.holdTaps.set i ht' }

/-- `select_flavor` (lines 514-536), consulting the last-key tracker. -/
def select_flavor (cfg : Config) (now : Int) (last : LastKeyInfo) : Flavor :=
  if cfg.prior_keycodes.length = 0 then cfg.normal_flavor
  else if last.valid = false then cfg.normal_flavor
  else if now - last.timestamp > cfg.prior_timeout_ms then cfg.normal_flavor
  else if cfg.prior_keycodes.contains last.keycode then cfg.after_flavor
  else cfg.normal_flavor

/-- `cht_record_last_key` (contextual_hold_tap_listener.c lines 21-28). -/
def cht_record_last_key (lk : LastKeyInfo) (keycode : Nat) (timestamp : Int) :
    LastKeyInfo :=
  if timestamp < lk.timestamp then lk
  else { keycode := keycode, timestamp := timestamp, valid := true }

/-- The `contextual_hold_tap` listener of contextual_hold_tap_listener.c
(lines 30-46): record non-modifier presses into the last-key tracker; always
bubbles. -/
def last_key_listener (s : EngineState) (ev : KeycodeEvent) : EngineState :=
  if ev.state = false then s
  else if is_mod ev.usage_page ev.keycode then s
  else { s with last_key := cht_record_last_key s.last_key ev.keycode ev.timestamp }

/-- One pass of the loop body of `update_hold_status_for_retro_tap`
(lines 463-476) over slots `i, i+1, ...` with `n` iterations left. -/
def retro_sweep_go (s : EngineState) (ignore_position : Int) (i n : Nat) :
    EngineState :=
  match n with
  | 0 => s
  | n + 1 =>
    let s' := match s.holdTaps[i]? with
      | none => s
      | some ht =>
        if ht.position = ignore_position ∨
            ht.position = CHT_POSITION_NOT_USED ∨
            ht.config.retro_tap = false then s
        else if ht.status = .holdTimer then
          let ht' : ActiveHoldTap := { ht with status := .holdInterrupt }
          press_binding { s with holdTaps := s.holdTaps.set i ht' } i
        else s
    retro_sweep_go s' ignore_position (i + 1) n

/-- `update_hold_status_for_retro_tap` (lines 463-476). -/
def update_hold_status_for_retro_tap (s : EngineState) (ignore_position : Int) :
    EngineState :=
  retro_sweep_go s ignore_position 0 s.holdTaps.length

/-- `decide_retro_tap` (lines 450-461) on slot `i`. -/
def decide_retro_tap (s : EngineState) (i : Nat) : EngineState :=
  match s.holdTaps[i]? with
  | none => s
  | some ht =>
    if ht.config.retro_tap = false then s
    else if ht.status = .holdTimer then
      let s1 := release_binding s i
      let ht' : ActiveHoldTap := { ht with status := .tap }
      let s2 := { s1 with holdTaps := s1.holdTaps.set i ht' }
      press_binding s2 i
    else s

/-- The `keycode_state_changed_listener` (lines 704-730); the Bool is `true`
for `ZMK_EV_EVENT_BUBBLE`, `false` for `ZMK_EV_EVENT_CAPTURED`. -/
def keycode_listener (s : EngineState) (ev : KeycodeEvent) :
    EngineState × Bool :=
  let s0 := if ev.state = true ∧ is_mod ev.usage_page ev.keycode = false then
      { s with last_tapped := store_last_tapped s.last_tapped ev.timestamp }
    else s
  match s0.undecided with
  | none => (s0, true)
  | some i =>
    if is_mod ev.usage_page ev.keycode = false then (s0, true)
    else
      match s0.holdTaps[i]? with
      | none => (s0, true)
      | some ht =>
        if ht.config.hold_while_undecided ∧ ht.status = .undecided then
          (s0, true)
        else
          ((capture_event s0 (.codeEv ev)).1, false)

/-- The mutually recursive part of the engine, defunctionalized so that the
recursion is structural on an explicit fuel: `decide_hold_tap`,
`release_captured_events` (entry check and loop), event raising
(`ZMK_EVENT_RAISE_AT`), `position_state_changed_listener`,
`on_hold_tap_binding_pressed`, `on_hold_tap_binding_released` and the timer
work handler. -/
inductive Call where
  | decideHT (i : Nat) (m : DecisionMoment)
  | releaseCaptured
  | drainFrom (i : Nat)
  | raiseEv (e : CapturedEvent)
  | posListener (ev : PositionEvent)
  | onPressed (position timestamp : Int) (cfg : Config)
  | onReleased (position timestamp : Int)
  | timerFire (i : Nat)
deriving DecidableEq, Repr

/-- One engine entry point, with fuel bounding the re-entrant recursion.  The
returned Bool is the listener result (`true` = `ZMK_EV_EVENT_BUBBLE`) for
listener calls and `false` (= `ZMK_BEHAVIOR_OPAQUE`) for the behavior driver
entries; it is unused for the other calls. -/
def step (km : Keymap) : Nat → Call → EngineState → EngineState × Bool
  | 0, _, s => (s, true)
  | f + 1, c, s =>
    match c with
    | .decideHT i m =>
      -- decide_hold_tap, contextual_hold_tap.c lines 365-448
      match s.holdTaps[i]? with
      | none => (s, true)
      | some ht =>
        if ht.status ≠ .undecided then (s, true)
        else if s.undecided ≠ some i then (s, true)
        else if ht.config.hold_while_undecided ∧ m = .keyDown then
          (press_hold_binding s ht, true)
        else
          match flavor_decision ht.selected_flavor m with
          | none => (s, true)
          | some st =>
            let ht1 := decide_positional_hold { ht with status := st }
            let s1 := { s with holdTaps := s.holdTaps.set i ht1,
                               undecided := none }
            let s2 := press_binding s1 i
            step km f .releaseCaptured s2
    | .releaseCaptured =>
      -- release_captured_events, lines 538-541 (entry check)
      if s.undecided ≠ none then (s, true)
      else step km f (.drainFrom 0) s
    | .drainFrom i =>
      -- release_captured_events, lines 543-573 (loop from slot i)
      match s.captured[i]? with
      | none => (s, true)
      | some none => (s, true)
      | some (some e) =>
        let s1 := { s with captured := s.captured.set i none }
        let s2 := (step km f (.raiseEv e) s1).1
        step km f (.drainFrom (i + 1)) s2
    | .raiseEv e =>
      -- ZMK_EVENT_RAISE_AT(ev, contextual_hold_tap): the last-key listener,
      -- then behavior_contextual_hold_tap_listener, then (on bubble) the
      -- downstream pipeline, where a position event reaches the keymap and
      -- may invoke the hold-tap behavior driver.
      match e with
      | .codeEv ev =>
        let s0 := last_key_listener s ev
        let (s1, bubble) := keycode_listener s0 ev
        if bubble then ({ s1 with downstream := s1.downstream ++ [e] }, true)
        else (s1, false)
      | .posEv ev =>
        let (s1, bubble) := step km f (.posListener ev) s
        if bubble then
          let s2 := { s1 with downstream := s1.downstream ++ [e] }
          match km ev.position with
          | none => (s2, true)
          | some cfg =>
            if ev.state then
              step km f (.onPressed ev.position ev.timestamp cfg) s2
            else
              step km f (.onReleased ev.position ev.timestamp) s2
        else (s1, false)
    | .posListener ev =>
      -- position_state_changed_listener, lines 653-702
      let s0 := update_hold_status_for_retro_tap s ev.position
      match s0.undecided with
      | none => (s0, true)
      | some i =>
        match s0.holdTaps[i]? with
        | none => (s0, true)
        | some ht =>
          let s1 := if ht.config.hold_trigger_on_release ≠ ev.state ∧
              ht.position_of_first_other_key_pressed = -1 then
              let ht' : ActiveHoldTap :=
                { ht with position_of_first_other_key_pressed := ev.position }
              { s0 with holdTaps := s0.holdTaps.set i ht' }
            else s0
          if ht.position = ev.position then (s1, true)
          else
            let s2 := if ev.timestamp > ht.timestamp + ht.config.tapping_term_ms
              then (step km f (.decideHT i .timerEvent) s1).1
              else s1
            match s2.undecided with
            | none => (s2, true)
            | some j =>
              if ev.state = false ∧
                  haveCapturedKeydown s2.captured ev.position = false then
                (s2, true)
              else
                let s3 := (capture_event s2 (.posEv ev)).1
                let m := if ev.state then DecisionMoment.otherKeyDown
                  else DecisionMoment.otherKeyUp
                let s4 := (step km f (.decideHT j m) s3).1
                (s4, false)
    | .onPressed position timestamp cfg =>
      -- on_hold_tap_binding_pressed, lines 577-619
      match s.undecided with
      | some _ => (s, false)
      | none =>
        match storeSlot s.holdTaps position timestamp cfg with
        | none => (s, false)
        | some (taps, i) =>
          let s1 := { s with holdTaps := taps }
          let s2 := match s1.holdTaps[i]? with
            | none => s1
            | some ht =>
              let ht' : ActiveHoldTap :=
                { ht with selected_flavor := select_flavor cfg timestamp s1.last_key }
              { s1 with holdTaps := s1.holdTaps.set i ht' }
          let s3 := { s2 with undecided := some i }
          match s3.holdTaps[i]? with
          | none => (s3, false)
          | some ht =>
            let s4 := if is_quick_tap s3.last_tapped ht then
                (step km f (.decideHT i .quickTap) s3).1
              else s3
            let s5 := (step km f (.decideHT i .keyDown) s4).1
            let s6 := { s5 with timers := s5.timers ++ [i] }
            (s6, false)
    | .onReleased position timestamp =>
      -- on_hold_tap_binding_released, lines 621-651
      match findSlot s.holdTaps position with
      | none => (s, false)
      | some i =>
        match s.holdTaps[i]? with
        | none => (s, false)
        | some ht =>
          let s0 := { s with timers := s.timers.erase i }
          let s1 := if timestamp > ht.timestamp + ht.config.tapping_term_ms
            then (step km f (.decideHT i .timerEvent) s0).1
            else s0
          let s2 := (step km f (.decideHT i .keyUp) s1).1
          let s3 := decide_retro_tap s2 i
          let s4 := release_binding s3 i
          let s5 := if ht.config.hold_while_undecided ∧
              ht.config.hold_while_undecided_linger then
              release_hold_binding s4 ht
            else s4
          (clear_hold_tap s5 i, false)
    | .timerFire i =>
      -- behavior_contextual_hold_tap_timer_work_handler, lines 745-754
      let s0 := { s with timers := s.timers.erase i }
      match s0.holdTaps[i]? with
      | none => (s0, true)
      | some ht =>
        if ht.work_is_cancelled then (clear_hold_tap s0 i, true)
        else step km f (.decideHT i .timerEvent) s0

/-- The externally driven operations of the engine. -/
inductive Op where
  | posEvent (ev : PositionEvent)
  | codeEvent (ev : KeycodeEvent)
  | htPressed (position timestamp : Int) (cfg : Config)
  | htReleased (position timestamp : Int)
  | timerFired (i : Nat)
deriving DecidableEq, Repr

/-- Run one external operation. -/
def runOp (km : Keymap) (fuel : Nat) (s : EngineState) (op : Op) : EngineState :=
  match op with
  | .posEvent ev => (step km fuel (.raiseEv (.posEv ev)) s).1
  | .codeEvent ev => (step km fuel (.raiseEv (.codeEv ev)) s).1
  | .htPressed p t cfg => (step km fuel (.onPressed p t cfg) s).1
  | .htReleased p t => (step km fuel (.onReleased p t) s).1
  | .timerFired i => (step km fuel (.timerFire i) s).1

/-- Run a sequence of external operations. -/
def runOps (km : Keymap) (fuel : Nat) (s : EngineState) (ops : List Op) :
    EngineState :=
  ops.foldl (runOp km fuel) s

/-- A free `active_hold_taps` slot as left by `behavior_contextual_hold_tap_init`
(position = CHT_POSITION_NOT_USED, everything else zero-initialized; the C
config pointer of a free slot is never dereferenced, a placeholder config
stands for it). -/
def freeSlot (cfg : Config) : ActiveHoldTap :=
  { position := CHT_POSITION_NOT_USED, timestamp := 0, status := .undecided,
    selected_flavor := .balanced, config := cfg, work_is_cancelled := false,
    position_of_first_other_key_pressed := -1 }

/-- The module state after init: `nHeld` free slots, `nCap` empty capture
slots, `last_tapped = {INT32_MIN, INT32_MIN}`, invalid last-key info. -/
def init_state (nHeld nCap : Nat) (cfg : Config) : EngineState :=
  { undecided := none,
    holdTaps := List.replicate nHeld (freeSlot cfg),
    captured := List.replicate nCap none,
    last_tapped := initial_last_tapped,
    last_key := { keycode := 0, timestamp := 0, valid := false },
    timers := [], invocations := [], downstream := [] }

/-- The status of hold-tap slot `i`, if the slot exists. -/
def statusAt (s : EngineState) (i : Nat) : Option Status :=
  (s.holdTaps[i]?).map ActiveHoldTap.status

end CHT

namespace Magic

/-! Embedding of the QMK alternate-repeat ("magic") key handler of
src/qmk/users/dario/magic.c.  `get_alt_repeat_key_keycode_user` and
`process_magic_record` are supplied by the keymap; the instances of
src/qmk/keyboards/lily58/rev1/keymaps/dario/keymap.c are embedded below.
`tap_code16` emits a 16-bit keycode under whatever modifiers are currently
active; an emission records both. -/

/-- QMK `QK_REPEAT_KEY`. -/
def QK_REP : Nat := 0x7C79

/-- QMK `QK_ALT_REPEAT_KEY`. -/
def QK_AREP : Nat := 0x7C7A

/-- QMK `IS_QK_MOD_TAP`: the 0x2000-0x3FFF range. -/
def IS_QK_MOD_TAP (kc : Nat) : Bool := 0x2000 ≤ kc ∧ kc ≤ 0x3FFF

/-- QMK `IS_QK_LAYER_TAP`: the 0x4000-0x4FFF range. -/
def IS_QK_LAYER_TAP (kc : Nat) : Bool := 0x4000 ≤ kc ∧ kc ≤ 0x4FFF

/-- QMK `QK_MOD_TAP_GET_TAP_KEYCODE`: the low byte. -/
def QK_MOD_TAP_GET_TAP_KEYCODE (kc : Nat) : Nat := kc % 256

/-- QMK `QK_LAYER_TAP_GET_TAP_KEYCODE`: the low byte. -/
def QK_LAYER_TAP_GET_TAP_KEYCODE (kc : Nat) : Nat := kc % 256

/-- `unwrap_tap_keycode` (magic.c lines 20-33): mod-tap and layer-tap wrap
their tap keycode in the low byte; `QK_AREP` does not fit and truncates to
0x7A, which the helper restores. -/
def unwrap_tap_keycode (kc : Nat) : Nat :=
  if IS_QK_MOD_TAP kc then
    let tap := QK_MOD_TAP_GET_TAP_KEYCODE kc
    if tap = 0x7A then QK_AREP else tap
  else if IS_QK_LAYER_TAP kc then QK_LAYER_TAP_GET_TAP_KEYCODE kc
  else kc

/-- Layer indices from `enum layers` of src/qmk/users/dario/dario.h. -/
def BASE_PRIMARY : Nat := 0

/-- See `BASE_PRIMARY`. -/
def BASE_ALT : Nat := 1

/-- See `BASE_PRIMARY`. -/
def BASE_ALT2 : Nat := 2

/-- HID keycodes used by the lily58 alternate-repeat mapping. -/
def KC_B : Nat := 0x05
def KC_C : Nat := 0x06
def KC_G : Nat := 0x0A
def KC_I : Nat := 0x0C
def KC_J : Nat := 0x0D
def KC_L : Nat := 0x0F
def KC_M : Nat := 0x10
def KC_N : Nat := 0x11
def KC_P : Nat := 0x13
def KC_Q : Nat := 0x14
def KC_T : Nat := 0x17
def KC_W : Nat := 0x1A
def KC_X : Nat := 0x1B
def KC_Y : Nat := 0x1C
def KC_1 : Nat := 0x1E
def KC_SPC : Nat := 0x2C
def KC_MINS : Nat := 0x2D
def KC_DOT : Nat := 0x37
def KC_COMM : Nat := 0x36
def KC_SLSH : Nat := 0x38

/-- `KC_GT = LSFT(KC_DOT)`. -/
def KC_GT : Nat := 0x0237

/-- `KC_LT = LSFT(KC_COMM)`. -/
def KC_LT : Nat := 0x0236

/-- `KC_COLN = LSFT(KC_SCLN)`. -/
def KC_COLN : Nat := 0x0233

/-- `enum magic_macros` of the lily58 keymap, based at `SAFE_RANGE = QK_USER
= 0x7E40`, in declaration order. -/
def MACRO_GITHUB_URL : Nat := 0x7E40
def MACRO_PD_TO_PH : Nat := 0x7E41
def MAGIC_ALT2_CHR_32 : Nat := 0x7E42
def MAGIC_ALT2_CHR_44 : Nat := 0x7E43
def MAGIC_ALT_CHR_32 : Nat := 0x7E44
def MAGIC_ALT_CHR_44 : Nat := 0x7E45
def MAGIC_PRIMARY_B : Nat := 0x7E46
def MAGIC_PRIMARY_CHR_32 : Nat := 0x7E47
def MAGIC_PRIMARY_CHR_44 : Nat := 0x7E48
def MAGIC_PRIMARY_I : Nat := 0x7E49
def MAGIC_PRIMARY_J : Nat := 0x7E4A
def MAGIC_PRIMARY_M : Nat := 0x7E4B
def MAGIC_PRIMARY_N : Nat := 0x7E4C
def MAGIC_PRIMARY_Q : Nat := 0x7E4D
def MAGIC_PRIMARY_T : Nat := 0x7E4E
def MAGIC_PRIMARY_W : Nat := 0x7E4F

/-- The `BASE_PRIMARY` switch of `get_alt_repeat_key_keycode_user`
(lily58 keymap.c); `none` models falling out of the switch. -/
def magic_primary_map (kc : Nat) : Option Nat :=
  if kc = KC_SPC then some MAGIC_PRIMARY_CHR_32
  else if kc = KC_COMM then some MAGIC_PRIMARY_CHR_44
  else if kc = KC_MINS then some KC_GT
  else if kc = KC_DOT then some KC_SLSH
  else if kc = KC_P then some KC_L
  else if kc = KC_L then some KC_P
  else if kc = KC_C then some KC_Y
  else if kc = KC_G then some KC_Y
  else if kc = KC_B then some MAGIC_PRIMARY_B
  else if kc = KC_I then some MAGIC_PRIMARY_I
  else if kc = KC_J then some MAGIC_PRIMARY_J
  else if kc = KC_M then some MAGIC_PRIMARY_M
  else if kc = KC_N then some MAGIC_PRIMARY_N
  else if kc = KC_Q then some MAGIC_PRIMARY_Q
  else if kc = KC_T then some MAGIC_PRIMARY_T
  else if kc = KC_W then some MAGIC_PRIMARY_W
  else if kc = KC_LT then some KC_GT
  else if kc = KC_1 then some KC_COLN
  else none

/-- The `BASE_ALT` switch of `get_alt_repeat_key_keycode_user`. -/
def magic_alt_map (kc : Nat) : Option Nat :=
  if kc = KC_SPC then some MAGIC_ALT_CHR_32
  else if kc = KC_COMM then some MAGIC_ALT_CHR_44
  else if kc = KC_MINS then some KC_GT
  else if kc = KC_DOT then some KC_SLSH
  else none

/-- The `BASE_ALT2` switch of `get_alt_repeat_key_keycode_user`. -/
def magic_alt2_map (kc : Nat) : Option Nat :=
  if kc = KC_SPC then some MAGIC_ALT2_CHR_32
  else if kc = KC_COMM then some MAGIC_ALT2_CHR_44
  else if kc = KC_MINS then some KC_GT
  else if kc = KC_DOT then some KC_SLSH
  else if kc = KC_C then some KC_Y
  else if kc = KC_G then some KC_Y
  else none

/-- `get_alt_repeat_key_keycode_user` (lily58 keymap.c lines 159-211):
per-base-layer mapping of the last key to its alternate; a miss returns the
"repeat previous" sentinel `QK_REP`.  The `mods` argument is accepted but,
as in the source, not consulted. -/
def get_alt_repeat_key_keycode_user (keycode mods base_layer : Nat) : Nat :=
  match (if base_layer = BASE_PRIMARY then magic_primary_map keycode else none) with
  | some v => v
  | none =>
    match (if base_layer = BASE_ALT then magic_alt_map keycode else none) with
    | some v => v
    | none =>
      match (if base_layer = BASE_ALT2 then magic_alt2_map keycode else none) with
      | some v => v
      | none => QK_REP

/-- The pressed branch of `process_magic_record` (lily58 keymap.c lines
214-263): the consumed keycodes and the literal each sends; `none` models
`return true` (not consumed). -/
def magic_record_string (kc : Nat) : Option String :=
  if kc = MAGIC_ALT2_CHR_32 then some "the"
  else if kc = MAGIC_ALT2_CHR_44 then some " but"
  else if kc = MAGIC_ALT_CHR_32 then some "the"
  else if kc = MAGIC_ALT_CHR_44 then some " but"
  else if kc = MAGIC_PRIMARY_B then some "efore"
  else if kc = MAGIC_PRIMARY_CHR_32 then some "the"
  else if kc = MAGIC_PRIMARY_CHR_44 then some " but"
  else if kc = MAGIC_PRIMARY_I then some "on"
  else if kc = MAGIC_PRIMARY_J then some "ust"
  else if kc = MAGIC_PRIMARY_M then some "ent"
  else if kc = MAGIC_PRIMARY_N then some "ion"
  else if kc = MAGIC_PRIMARY_Q then some "ue"
  else if kc = MAGIC_PRIMARY_T then some "ion"
  else if kc = MAGIC_PRIMARY_W then some "hich"
  else none

/-- An observable emission of the magic handler: `SEND_STRING` of a literal,
or `tap_code16` of a keycode under the currently active modifiers. -/
inductive Action where
  | sendString (s : String)
  | tapCode16 (keycode : Nat) (active_mods : Nat)
deriving DecidableEq, Repr

/-- `handle_magic_tap` (magic.c lines 36-72).  `amap` is the keymap-supplied
`get_alt_repeat_key_keycode_user` (keycode, mods, current base layer), `pmr`
the pressed branch of the keymap-supplied `process_magic_record`; `last_raw`
and `last_mods` are `get_last_keycode()` / `get_last_mods()` of the repeat
key machinery, and `cur_mods` the modifiers currently active when
`tap_code16` runs. -/
def handle_magic_tap (amap : Nat → Nat → Nat → Nat)
    (pmr : Nat → Option String) (base_layer : Nat)
    (last_raw last_mods cur_mods : Nat) : List Action :=
  let last_key := unwrap_tap_keycode last_raw
  let alt := amap last_key last_mods base_layer
  match pmr alt with
  | some str => [.sendString str]
  | none =>
    if alt = QK_REP then [.tapCode16 last_key cur_mods]
    else [.tapCode16 alt cur_mods]

end Magic

namespace CHT

/-! ### Concrete fixtures used by witnesses and counterexamples -/

/-- An empty keymap: no position carries a hold-tap behavior. -/
def kmNone : Keymap := fun _ => none

/-- A plain balanced configuration: `tapping-term-ms 200`, quick-tap and
prior-idle disabled (the ZMK defaults of -1), no positional rule, tap
binding 1, hold binding 2. -/
def cfgBalanced : Config :=
  { tapping_term_ms := 200, quick_tap_ms := -1, require_prior_idle_ms := -1,
    normal_flavor := .balanced, after_flavor := .balanced,
    hold_while_undecided := false, hold_while_undecided_linger := false,
    retro_tap := false, hold_trigger_on_release := false,
    hold_trigger_key_positions := [], tap_bindings := [1], hold_bindings := [2],
    prior_keycodes := [], prior_timeout_ms := 0 }

/-- `cfgBalanced` with `retro-tap` enabled. -/
def cfgRetro : Config := { cfgBalanced with retro_tap := true }

/-- An undecided active hold-tap at position 5, keydown at t = 0. -/
def htU : ActiveHoldTap :=
  { position := 5, timestamp := 0, status := .undecided,
    selected_flavor := .balanced, config := cfgBalanced,
    work_is_cancelled := false, position_of_first_other_key_pressed := -1 }

/-- A state with `htU` undecided in slot 0 and an empty two-slot buffer. -/
def sU : EngineState :=
  { undecided := some 0, holdTaps := [htU], captured := [none, none],
    last_tapped := initial_last_tapped,
    last_key := { keycode := 0, timestamp := 0, valid := false },
    timers := [0], invocations := [], downstream := [] }

/-- A state whose slot-0 hold-tap is already decided (status TAP). -/
def sDecided : EngineState :=
  { sU with undecided := none,
            holdTaps := [{ htU with status := .tap }], timers := [] }

/-- The pure-tap scenario of the spec: balanced hold-tap at position 10
pressed at t = 0 and released at t = 50 with no intervening event. -/
def pureTapRun : EngineState :=
  runOps kmNone 20 (init_state 4 6 cfgBalanced)
    [.htPressed 10 0 cfgBalanced, .htReleased 10 50]

/-- Press a hold-tap at t = 0, then receive a non-modifier keycode press
(usage page 7, keycode 4) at t = 50 while it is undecided. -/
def sAfterKeycode : EngineState :=
  runOps kmNone 20 (init_state 4 6 cfgBalanced)
    [.htPressed 10 0 cfgBalanced, .codeEvent ⟨7, 4, true, 50⟩]

/-- A retro-tap hold-tap pressed at t = 0 whose release arrives at t = 300,
after the tapping term, with the scheduled timer never having fired. -/
def retroReleaseRun : EngineState :=
  runOps kmNone 20 (init_state 4 6 cfgRetro)
    [.htPressed 10 0 cfgRetro, .htReleased 10 300]

/-- A hold-preferred hold-tap with trigger positions `[40, 41, 42]` whose
first other key was 20 (outside the trigger set). -/
def htPos : ActiveHoldTap :=
  { htU with
    selected_flavor := .holdPreferred,
    config := { cfgBalanced with hold_trigger_key_positions := [40, 41, 42] },
    position_of_first_other_key_pressed := 20 }

/-- `sU` with `htPos` as the undecided hold-tap. -/
def sPos : EngineState := { sU with holdTaps := [htPos] }

/-- `cfgBalanced` with `quick-tap-ms 100`. -/
def cfgQT : Config := { cfgBalanced with quick_tap_ms := 100 }

/-- Fresh engine whose last tap was hold-tap position 10 at t = 0. -/
def sQT : EngineState :=
  { init_state 2 2 cfgQT with last_tapped := ⟨10, 0⟩ }

/-- The slot list produced by storing a hold-tap at position 10, t = 50 into
`sQT`. -/
def tapsW : List ActiveHoldTap :=
  ((storeSlot sQT.holdTaps 10 50 cfgQT).getD ([], 0)).1

/-- A state with a full two-slot capture buffer and an undecided balanced
hold-tap (slot 0, position 5) that has already seen a first other key. -/
def sFullBuf : EngineState :=
  { undecided := some 0,
    holdTaps := [{ htU with position_of_first_other_key_pressed := 20 }],
    captured := [some (.posEv ⟨20, true, 10⟩), some (.posEv ⟨21, true, 12⟩)],
    last_tapped := initial_last_tapped,
    last_key := { keycode := 0, timestamp := 0, valid := false },
    timers := [0], invocations := [], downstream := [] }

/-- A keymap carrying the balanced hold-tap behavior at position 10 only. -/
def kmHT : Keymap := fun p => if p = 10 then some cfgBalanced else none

/-- Keydown of the hold-tap key at position 10, t = 0. -/
def peH : PositionEvent := ⟨10, true, 0⟩

/-- Keydown of another key at position 20, t = 10. -/
def peA : PositionEvent := ⟨20, true, 10⟩

/-- Keydown of another key at position 21, t = 20. -/
def peB : PositionEvent := ⟨21, true, 20⟩

/-- `sDecided` with two captured other-key keydowns awaiting drain. -/
def sDrainW : EngineState :=
  { sDecided with captured := [some (.posEv peA), some (.posEv peB)] }

/-- A drain-ready state (no undecided hold-tap, two free slots) whose
buffer holds the keydown of hold-tap key 10 followed by two captured
other-key keydowns. -/
def sRecap : EngineState :=
  { undecided := none,
    holdTaps := [freeSlot cfgBalanced, freeSlot cfgBalanced],
    captured := [some (.posEv peH), some (.posEv peA), some (.posEv peB), none],
    last_tapped := initial_last_tapped,
    last_key := { keycode := 0, timestamp := 0, valid := false },
    timers := [], invocations := [], downstream := [] }

/-- The slot list after storing hold-tap position 10, t = 0 into `sRecap`. -/
def tapsRecap : List ActiveHoldTap :=
  ((storeSlot sRecap.holdTaps 10 0 cfgBalanced).getD ([], 0)).1

end CHT

namespace CHT

/-! ## Theorems -/

/-! ### Helper lemmas about the engine step function -/

theorem invoke_binding_set_proj (s : EngineState) (b : List Nat)
    (p t : Int) (pr : Bool) :
    (invoke_binding_set s b p t pr).holdTaps = s.holdTaps ∧
    (invoke_binding_set s b p t pr).captured = s.captured ∧
    (invoke_binding_set s b p t pr).undecided = s.undecided ∧
    (invoke_binding_set s b p t pr).downstream = s.downstream ∧
    (invoke_binding_set s b p t pr).timers = s.timers := by
  refine ⟨rfl, rfl, rfl, rfl, rfl⟩

/-- `press_binding` only appends invocations and possibly rewrites
`last_tapped`; every other engine-state field is untouched. -/
theorem press_binding_proj (s : EngineState) (i : Nat) :
    (press_binding s i).holdTaps = s.holdTaps ∧
    (press_binding s i).captured = s.captured ∧
    (press_binding s i).undecided = s.undecided ∧
    (press_binding s i).downstream = s.downstream ∧
    (press_binding s i).timers = s.timers := by
  unfold press_binding
  cases hg : s.holdTaps[i]? with
  | none => exact ⟨rfl, rfl, rfl, rfl, rfl⟩
  | some ht =>
    simp only
    split_ifs <;> exact ⟨rfl, rfl, rfl, rfl, rfl⟩

/-- `release_binding` likewise only appends invocations. -/
theorem release_binding_proj (s : EngineState) (i : Nat) :
    (release_binding s i).holdTaps = s.holdTaps ∧
    (release_binding s i).captured = s.captured ∧
    (release_binding s i).undecided = s.undecided ∧
    (release_binding s i).downstream = s.downstream ∧
    (release_binding s i).timers = s.timers := by
  unfold release_binding
  cases hg : s.holdTaps[i]? with
  | none => exact ⟨rfl, rfl, rfl, rfl, rfl⟩
  | some ht =>
    simp only
    split_ifs <;> exact ⟨rfl, rfl, rfl, rfl, rfl⟩

theorem press_binding_holdTaps (s : EngineState) (i : Nat) :
    (press_binding s i).holdTaps = s.holdTaps := (press_binding_proj s i).1

theorem press_binding_captured (s : EngineState) (i : Nat) :
    (press_binding s i).captured = s.captured := (press_binding_proj s i).2.1

theorem press_binding_undecided (s : EngineState) (i : Nat) :
    (press_binding s i).undecided = s.undecided := (press_binding_proj s i).2.2.1

theorem release_binding_holdTaps (s : EngineState) (i : Nat) :
    (release_binding s i).holdTaps = s.holdTaps := (release_binding_proj s i).1

theorem release_binding_captured (s : EngineState) (i : Nat) :
    (release_binding s i).captured = s.captured := (release_binding_proj s i).2.1

theorem release_binding_undecided (s : EngineState) (i : Nat) :
    (release_binding s i).undecided = s.undecided :=
  (release_binding_proj s i).2.2.1

/-- With no undecided hold-tap and an empty (or absent) first buffer slot,
`release_captured_events` is a no-op. -/
theorem releaseCaptured_noop (km : Keymap) (f : Nat) (s : EngineState)
    (hund : s.undecided = none)
    (hbuf : s.captured[0]? = none ∨ s.captured[0]? = some none) :
    step km (f + 2) .releaseCaptured s = (s, true) := by
  rcases hbuf with h | h <;> simp [step, hund, h]

/-- `decide_hold_tap` on an already-decided hold-tap is a no-op
(contextual_hold_tap.c line 367). -/
theorem decide_noop_of_decided (km : Keymap) (f : Nat) (s : EngineState)
    (i : Nat) (ht : ActiveHoldTap) (m : DecisionMoment)
    (hget : s.holdTaps[i]? = some ht) (hstat : ht.status ≠ .undecided) :
    step km (f + 1) (.decideHT i m) s = (s, true) := by
  simp [step, hget, hstat]

/-- `decide_hold_tap` on an undecided hold-tap is a no-op when the flavor
switch has no case for the decision moment. -/
theorem decide_noop_of_no_transition (km : Keymap) (f : Nat) (s : EngineState)
    (i : Nat) (ht : ActiveHoldTap) (m : DecisionMoment)
    (hget : s.holdTaps[i]? = some ht) (hstat : ht.status = .undecided)
    (hund : s.undecided = some i)
    (hnk : ¬(ht.config.hold_while_undecided ∧ m = .keyDown))
    (hfl : flavor_decision ht.selected_flavor m = none) :
    step km (f + 1) (.decideHT i m) s = (s, true) := by
  simp [step, hget, hstat, hund, hnk, hfl]

/-- When the flavor switch transitions an undecided hold-tap to `st`, the
stored record afterwards is exactly `decide_positional_hold` applied to the
record with status `st`, and the undecided pointer is cleared (stated for a
state whose capture buffer is empty, so that the replay is a no-op). -/
theorem decide_transition (km : Keymap) (f : Nat) (s : EngineState)
    (i : Nat) (ht : ActiveHoldTap) (m : DecisionMoment) (st : Status)
    (hget : s.holdTaps[i]? = some ht) (hstat : ht.status = .undecided)
    (hund : s.undecided = some i)
    (hnk : ¬(ht.config.hold_while_undecided ∧ m = .keyDown))
    (hfl : flavor_decision ht.selected_flavor m = some st)
    (hbuf : s.captured[0]? = none ∨ s.captured[0]? = some none) :
    (step km (f + 3) (.decideHT i m) s).1.holdTaps[i]? =
      some (decide_positional_hold { ht with status := st }) ∧
    (step km (f + 3) (.decideHT i m) s).1.undecided = none := by
  have hlen : i < s.holdTaps.length := by
    rcases List.getElem?_eq_some_iff.mp hget with ⟨h, _⟩
    exact h
  have hset : ∀ a : ActiveHoldTap, (s.holdTaps.set i a)[i]? = some a :=
    fun a => List.getElem?_set_eq_of_lt a hlen
  rcases hbuf with h | h <;>
    simp [step, hget, hstat, hund, hnk, hfl, hset, h,
      press_binding_holdTaps, press_binding_captured, press_binding_undecided]

theorem flavor_decision_quickTap (fl : Flavor) :
    flavor_decision fl .quickTap = some .tap := by cases fl <;> rfl

theorem flavor_decision_keyDown (fl : Flavor) :
    flavor_decision fl .keyDown = none := by cases fl <;> rfl

theorem flavor_decision_timerEvent (fl : Flavor) :
    flavor_decision fl .timerEvent = some .holdTimer := by cases fl <;> rfl

/-- `is_quick_tap` holds exactly under the two timing conditions of the
source: recent last tap at any position within `require_prior_idle_ms`, or
same-position last tap within `quick_tap_ms`. -/
theorem is_quick_tap_iff (lt : LastTapped) (ht : ActiveHoldTap) :
    is_quick_tap lt ht = true ↔
      (lt.timestamp + ht.config.require_prior_idle_ms > ht.timestamp ∨
       (lt.position = ht.position ∧
        lt.timestamp + ht.config.quick_tap_ms > ht.timestamp)) := by
  simp only [is_quick_tap]
  split_ifs with h1 h2
  · simp [h1]
  · simp [h1, h2]
  · simp [h1, h2]

/-- `store_hold_tap` fills the first free slot: the result is the input slot
list with slot `i` (previously free) overwritten by the fresh record. -/
theorem storeSlot_eq_set (l : List ActiveHoldTap) (pos ts : Int)
    (cfg : Config) :
    ∀ (l' : List ActiveHoldTap) (i : Nat),
      storeSlot l pos ts cfg = some (l', i) →
      ∃ old : ActiveHoldTap, l[i]? = some old ∧
        old.position = CHT_POSITION_NOT_USED ∧
        l' = l.set i
          { position := pos, timestamp := ts, status := .undecided,
            selected_flavor := cfg.normal_flavor, config := cfg,
            work_is_cancelled := old.work_is_cancelled,
            position_of_first_other_key_pressed := -1 } := by
  induction l with
  | nil => intro l' i h; simp [storeSlot] at h
  | cons ht rest ih =>
    intro l' i h
    simp only [storeSlot] at h
    by_cases hfree : ht.position = CHT_POSITION_NOT_USED
    · rw [if_pos hfree] at h
      have h' := Option.some.inj h
      injection h' with h1 h2
      subst h1
      subst h2
      exact ⟨ht, List.getElem?_cons_zero, hfree, by simp⟩
    · rw [if_neg hfree] at h
      cases hr : storeSlot rest pos ts cfg with
      | none => rw [hr] at h; simp at h
      | some p =>
        rw [hr] at h
        have h' : (ht :: p.1, p.2 + 1) = (l', i) := Option.some.inj h
        obtain ⟨old, hgetold, holdfree, hrest⟩ := ih p.1 p.2 hr
        injection h' with h1 h2
        subst h1
        subst h2
        exact ⟨old, by rw [List.getElem?_cons_succ]; exact hgetold, holdfree,
          by rw [hrest]; rfl⟩

/-- `decide_positional_hold` forces TAP exactly when the trigger list is
non-empty, a first other key is recorded and that key is not in the list. -/
theorem decide_positional_hold_spec (ht : ActiveHoldTap) :
    decide_positional_hold ht =
      if ht.config.hold_trigger_key_positions.length > 0 ∧
          ht.position_of_first_other_key_pressed ≠ -1 ∧
          ht.position_of_first_other_key_pressed ∉
            ht.config.hold_trigger_key_positions
      then { ht with status := .tap } else ht := by
  simp only [decide_positional_hold, is_first_other_key_pressed_trigger_key]
  by_cases h1 : ht.config.hold_trigger_key_positions.length > 0 <;>
    by_cases h2 : ht.position_of_first_other_key_pressed = -1 <;>
    by_cases h3 : ht.position_of_first_other_key_pressed ∈
      ht.config.hold_trigger_key_positions <;>
    simp [h1, h2, h3]

/-- Reading just past a fully occupied prefix. -/
theorem getElem?_map_some_append (A : List CapturedEvent)
    (rest : List (Option CapturedEvent)) :
    (A.map some ++ none :: rest)[A.length + 1]? = rest[0]? := by
  induction A with
  | nil => simp
  | cons a A ih => simpa using ih

/-- Writing just past a fully occupied prefix. -/
theorem set_map_some_append (A : List CapturedEvent)
    (rest : List (Option CapturedEvent)) (x : Option CapturedEvent) :
    (A.map some ++ none :: rest).set (A.length + 1) x =
      A.map some ++ none :: rest.set 0 x := by
  induction A with
  | nil => rfl
  | cons a A ih => simpa using ih

/-- Reading just past a cleared prefix. -/
theorem getElem?_replicate_append (c : Nat)
    (rest : List (Option CapturedEvent)) :
    (List.replicate c (none : Option CapturedEvent) ++ rest)[c]? =
      rest[0]? := by
  induction c with
  | zero => rfl
  | succ c ih => simpa [List.replicate_succ] using ih

/-- Writing just past a cleared prefix. -/
theorem set_replicate_append (c : Nat)
    (rest : List (Option CapturedEvent)) (x : Option CapturedEvent) :
    (List.replicate c (none : Option CapturedEvent) ++ rest).set c x =
      List.replicate c none ++ rest.set 0 x := by
  induction c with
  | zero => rfl
  | succ c ih => simpa [List.replicate_succ] using ih

/-- `capture_event`'s scan writes directly after the occupied prefix, i.e.
captures are appended in arrival order. -/
theorem captureList_append_after (A : List CapturedEvent)
    (rest : List (Option CapturedEvent)) (e : CapturedEvent) :
    captureList (A.map some ++ none :: rest) e =
      some (A.map some ++ some e :: rest) := by
  induction A with
  | nil => rfl
  | cons a A ih => simp [captureList, ih]

/-- The retro-tap sweep never touches the capture buffer, the undecided
pointer, the downstream trace or `last_key`. -/
theorem retro_sweep_go_proj (ign : Int) :
    ∀ (n j : Nat) (s : EngineState),
      (retro_sweep_go s ign j n).captured = s.captured ∧
      (retro_sweep_go s ign j n).undecided = s.undecided ∧
      (retro_sweep_go s ign j n).downstream = s.downstream ∧
      (retro_sweep_go s ign j n).last_key = s.last_key := by
  intro n
  induction n with
  | zero => intro j s; exact ⟨rfl, rfl, rfl, rfl⟩
  | succ n ih =>
    intro j s
    simp only [retro_sweep_go]
    cases hg : s.holdTaps[j]? with
    | none => simpa using ih (j + 1) s
    | some ht =>
      dsimp only
      split_ifs with h1 h2
      · simpa using ih (j + 1) s
      · obtain ⟨hc, hu, hd, hk⟩ := ih (j + 1)
          (press_binding { s with holdTaps := s.holdTaps.set j { ht with status := .holdInterrupt } } j)
        obtain ⟨-, pc, pu, pd, -⟩ :=
          (press_binding_proj { s with holdTaps := s.holdTaps.set j { ht with status := .holdInterrupt } } j)
        refine ⟨?_, ?_, ?_, ?_⟩
        · rw [hc, pc]
        · rw [hu, pu]
        · rw [hd, pd]
        · rw [hk]
          unfold press_binding
          cases hg2 : ({ s with holdTaps := s.holdTaps.set j { ht with status := .holdInterrupt } } : EngineState).holdTaps[j]? with
          | none => rfl
          | some ht2 =>
            simp only
            split_ifs <;> rfl
      · simpa using ih (j + 1) s

/-- When every stored hold-tap has `retro_tap` off, the sweep is the
identity. -/
theorem retro_sweep_go_id (ign : Int) :
    ∀ (n j : Nat) (s : EngineState),
      (∀ ht ∈ s.holdTaps, ht.config.retro_tap = false) →
      retro_sweep_go s ign j n = s := by
  intro n
  induction n with
  | zero => intro j s _; rfl
  | succ n ih =>
    intro j s hall
    simp only [retro_sweep_go]
    cases hg : s.holdTaps[j]? with
    | none => exact ih (j + 1) s hall
    | some ht =>
      have hmem : ht ∈ s.holdTaps := List.getElem?_mem hg
      dsimp only
      rw [if_pos (Or.inr (Or.inr (hall ht hmem)))]
      exact ih (j + 1) s hall

/-- With no undecided hold-tap, the position listener is just the retro
sweep followed by BUBBLE. -/
theorem posListener_bubble_of_no_undecided (km : Keymap) (f : Nat)
    (s : EngineState) (ev : PositionEvent) (hund : s.undecided = none) :
    step km (f + 1) (.posListener ev) s =
      (update_hold_status_for_retro_tap s ev.position, true) := by
  have hu := (retro_sweep_go_proj ev.position s.holdTaps.length 0 s).2.1
  simp only [step, update_hold_status_for_retro_tap]
  rw [show (retro_sweep_go s ev.position 0 s.holdTaps.length).undecided = none
    from hu.trans hund]

theorem last_key_listener_proj (s : EngineState) (ev : KeycodeEvent) :
    (last_key_listener s ev).captured = s.captured ∧
    (last_key_listener s ev).undecided = s.undecided ∧
    (last_key_listener s ev).downstream = s.downstream := by
  unfold last_key_listener
  split_ifs <;> exact ⟨rfl, rfl, rfl⟩

/-- With no undecided hold-tap, the keycode listener updates at most
`last_tapped` and bubbles. -/
theorem keycode_listener_eq_of_no_undecided (s : EngineState)
    (ev : KeycodeEvent) (hund : s.undecided = none) :
    keycode_listener s ev =
      (if ev.state = true ∧ is_mod ev.usage_page ev.keycode = false then
        { s with last_tapped := store_last_tapped s.last_tapped ev.timestamp }
      else s, true) := by
  by_cases h : ev.state = true ∧ is_mod ev.usage_page ev.keycode = false <;>
    simp [keycode_listener, h, hund]

/-- With no undecided hold-tap and a keymap with no hold-tap behaviors,
raising any event bubbles it downstream and leaves the capture buffer and
the (absent) undecided pointer untouched. -/
theorem raise_bubbles_of_no_undecided (km : Keymap)
    (hkm : ∀ p : Int, km p = none) (f : Nat) (s : EngineState)
    (e : CapturedEvent) (hund : s.undecided = none) :
    (step km (f + 2) (.raiseEv e) s).1.captured = s.captured ∧
    (step km (f + 2) (.raiseEv e) s).1.undecided = none ∧
    (step km (f + 2) (.raiseEv e) s).1.downstream = s.downstream ++ [e] := by
  cases e with
  | codeEv ev =>
    have hlk := last_key_listener_proj s ev
    have hkc := keycode_listener_eq_of_no_undecided (last_key_listener s ev)
      ev (hlk.2.1.trans hund)
    by_cases h : ev.state = true ∧ is_mod ev.usage_page ev.keycode = false <;>
      simp [step, hkc, h, hlk.1, hlk.2.1, hlk.2.2, hund]
  | posEv ev =>
    have hpl := posListener_bubble_of_no_undecided km f s ev hund
    have hproj := retro_sweep_go_proj ev.position s.holdTaps.length 0 s
    simp [step, hpl, hkm, update_hold_status_for_retro_tap, hproj.1,
      hproj.2.1, hproj.2.2.1, hund]

/-- One step of the drain loop on an occupied slot. -/
theorem drainFrom_cons (km : Keymap) (g c : Nat) (s : EngineState)
    (e : CapturedEvent) (hget : s.captured[c]? = some (some e)) :
    step km (g + 1) (.drainFrom c) s =
      step km g (.drainFrom (c + 1))
        ((step km g (.raiseEv e) { s with captured := s.captured.set c none }).1) := by
  simp only [step, hget]

/-- The drain loop stops at an empty or absent slot. -/
theorem drainFrom_stop (km : Keymap) (g c : Nat) (s : EngineState)
    (hget : s.captured[c]? = none ∨ s.captured[c]? = some none) :
    step km (g + 1) (.drainFrom c) s = (s, true) := by
  rcases hget with h | h <;> simp [step, h]

/-- With no undecided hold-tap, `release_captured_events` enters its loop. -/
theorem releaseCaptured_unfold (km : Keymap) (g : Nat) (s : EngineState)
    (hund : s.undecided = none) :
    step km (g + 1) .releaseCaptured s = step km g (.drainFrom 0) s := by
  simp [step, hund]

/-- FIFO delivery without interference: with no undecided hold-tap and no
hold-tap behaviors in the keymap, draining from the front of a buffer whose
slots from `c` on hold the events `T` (occupied run, then free slots)
re-raises downstream exactly `T`, in capture order. -/
theorem drain_clears_in_order (km : Keymap) (hkm : ∀ p : Int, km p = none) :
    ∀ (T : List CapturedEvent) (c h f : Nat) (s : EngineState),
      s.undecided = none →
      s.captured = List.replicate c none ++ T.map some ++
        List.replicate h none →
      2 * T.length + 1 ≤ f →
      ∃ s', step km f (.drainFrom c) s = (s', true) ∧
        s'.downstream = s.downstream ++ T ∧ s'.undecided = none := by
  intro T
  induction T with
  | nil =>
    intro c h f s hund hbuf hf
    obtain ⟨g, rfl⟩ : ∃ g, f = g + 1 := ⟨f - 1, by omega⟩
    refine ⟨s, ?_, by simp, hund⟩
    have hget : s.captured[c]? =
        (List.replicate h (none : Option CapturedEvent))[0]? := by
      rw [hbuf]
      simp only [List.map_nil, List.nil_append, List.append_nil]
      exact getElem?_replicate_append c _
    apply drainFrom_stop
    cases h with
    | zero => left; simpa using hget
    | succ h' => right; rw [hget]; simp [List.replicate_succ]
  | cons e T ih =>
    intro c h f s hund hbuf hf
    simp only [List.length_cons] at hf
    obtain ⟨g, rfl⟩ : ∃ g, f = g + 1 := ⟨f - 1, by omega⟩
    have hget : s.captured[c]? = some (some e) := by
      rw [hbuf, List.append_assoc, getElem?_replicate_append]
      simp
    have hset : s.captured.set c none =
        List.replicate (c + 1) none ++ T.map some ++
          List.replicate h none := by
      rw [hbuf, List.append_assoc, set_replicate_append]
      simp [List.replicate_succ', List.append_assoc]
    obtain ⟨g', rfl⟩ : ∃ g', g = g' + 2 := ⟨g - 2, by omega⟩
    have hraise := raise_bubbles_of_no_undecided km hkm g'
      { s with captured := s.captured.set c none } e hund
    obtain ⟨s', hstep, hdown, hundf⟩ := ih (c + 1) h (g' + 2)
      ((step km (g' + 2) (.raiseEv e)
        { s with captured := s.captured.set c none }).1)
      hraise.2.1 (by rw [hraise.1]; simpa using hset) (by omega)
    refine ⟨s', ?_, ?_, hundf⟩
    · rw [drainFrom_cons km (g' + 2) c s e hget]
      exact hstep
    · rw [hdown, hraise.2.2]
      simp

theorem capture_event_proj (s : EngineState) (e : CapturedEvent) :
    (capture_event s e).1.holdTaps = s.holdTaps ∧
    (capture_event s e).1.undecided = s.undecided ∧
    (capture_event s e).1.downstream = s.downstream := by
  unfold capture_event
  cases captureList s.captured e <;> exact ⟨rfl, rfl, rfl⟩

/-- At any fuel, a decision moment with no flavor-table entry leaves the
state unchanged. -/
theorem decide_fst_noop_of_no_transition (km : Keymap) (g : Nat)
    (s : EngineState) (i : Nat) (ht : ActiveHoldTap) (m : DecisionMoment)
    (hget : s.holdTaps[i]? = some ht) (hstat : ht.status = .undecided)
    (hund : s.undecided = some i)
    (hnk : ¬(ht.config.hold_while_undecided ∧ m = .keyDown))
    (hfl : flavor_decision ht.selected_flavor m = none) :
    (step km g (.decideHT i m) s).1 = s := by
  cases g with
  | zero => rfl
  | succ g' =>
    rw [decide_noop_of_no_transition km g' s i ht m hget hstat hund hnk hfl]

/-- Raising a captured keydown of another key while a hold-tap is undecided,
when the selected flavor does not decide on OTHER_KEY_DOWN and the timer
has not elapsed: the event is re-captured (the listener answers CAPTURED)
and the only state changes are the capture itself and possibly the
recording of the first other key. -/
theorem recapture_step (km : Keymap) (g : Nat) (i : Nat)
    (pe : PositionEvent) (s : EngineState) (ht : ActiveHoldTap)
    (hund : s.undecided = some i)
    (hretroAll : ∀ x ∈ s.holdTaps, x.config.retro_tap = false)
    (hget : s.holdTaps[i]? = some ht)
    (hstat : ht.status = .undecided)
    (hfl : flavor_decision ht.selected_flavor .otherKeyDown = none)
    (htor : ht.config.hold_trigger_on_release = false)
    (hstate : pe.state = true)
    (hpos : ht.position ≠ pe.position)
    (hts : ¬(pe.timestamp > ht.timestamp + ht.config.tapping_term_ms)) :
    step km (g + 2) (.raiseEv (.posEv pe)) s =
      ((capture_event
        (if ht.position_of_first_other_key_pressed = -1 then
          { s with holdTaps := s.holdTaps.set i ({ ht with position_of_first_other_key_pressed := pe.position }) }
        else s) (.posEv pe)).1, false) := by
  obtain ⟨hlen, -⟩ := List.getElem?_eq_some_iff.mp hget
  have hsetl : ∀ a : ActiveHoldTap, (s.holdTaps.set i a)[i]? = some a :=
    fun a => List.getElem?_set_eq_of_lt a hlen
  have hid := retro_sweep_go_id pe.position s.holdTaps.length 0 s hretroAll
  by_cases hpof : ht.position_of_first_other_key_pressed = -1
  · have hcap := capture_event_proj
      { s with holdTaps := s.holdTaps.set i ({ ht with position_of_first_other_key_pressed := pe.position }) }
      (.posEv pe)
    have hdec := decide_fst_noop_of_no_transition km g
      (capture_event
        { s with holdTaps := s.holdTaps.set i ({ ht with position_of_first_other_key_pressed := pe.position }) }
        (.posEv pe)).1
      i { ht with position_of_first_other_key_pressed := pe.position }
      .otherKeyDown (by rw [hcap.1]; exact hsetl _) (by simpa using hstat)
      (by rw [hcap.2.1]; exact hund) (by simp) (by simpa using hfl)
    rw [hund] at hdec
    simp [step, update_hold_status_for_retro_tap, hid, hund, hget, htor,
      hstate, hpos, hts, hpof, hsetl, hdec]
  · have hcap := capture_event_proj s (.posEv pe)
    have hdec := decide_fst_noop_of_no_transition km g
      (capture_event s (.posEv pe)).1 i ht .otherKeyDown
      (by rw [hcap.1]; exact hget) hstat (by rw [hcap.2.1]; exact hund)
      (by simp) hfl
    simp [step, update_hold_status_for_retro_tap, hid, hund, hget, htor,
      hstate, hpos, hts, hpof, hdec]

/-- Mid-drain re-capture preserves relative order: draining the cursor run
`T2` (all keydowns of other keys, none deciding the undecided hold-tap, no
timer expiry) re-captures every event at the front of the buffer, in the
original relative order, and delivers nothing downstream. -/
theorem recapture_loop (km : Keymap) (i : Nat) :
    ∀ (T2 : List PositionEvent) (A : List CapturedEvent) (h f : Nat)
      (s : EngineState) (ht : ActiveHoldTap),
      s.undecided = some i →
      (∀ x ∈ s.holdTaps, x.config.retro_tap = false) →
      s.holdTaps[i]? = some ht →
      ht.status = .undecided →
      flavor_decision ht.selected_flavor .otherKeyDown = none →
      ht.config.hold_trigger_on_release = false →
      s.captured = A.map some ++ none ::
        (T2.map (fun pe => some (.posEv pe)) ++ List.replicate h none) →
      (∀ pe ∈ T2, pe.state = true ∧ pe.position ≠ ht.position ∧
        ¬(pe.timestamp > ht.timestamp + ht.config.tapping_term_ms)) →
      2 * T2.length + 1 ≤ f →
      ∃ s', step km f (.drainFrom (A.length + 1)) s = (s', true) ∧
        s'.captured = (A ++ T2.map CapturedEvent.posEv).map some ++
          none :: List.replicate h none ∧
        s'.downstream = s.downstream ∧
        s'.undecided = some i := by
  intro T2
  induction T2 with
  | nil =>
    intro A h f s ht hund hretroAll hget hstat hfl htor hbuf hT hf
    obtain ⟨g, rfl⟩ : ∃ g, f = g + 1 := ⟨f - 1, by omega⟩
    refine ⟨s, ?_, by simpa using hbuf, rfl, hund⟩
    have hg : s.captured[A.length + 1]? =
        (List.map (fun pe => some (CapturedEvent.posEv pe)) [] ++
          List.replicate h (none : Option CapturedEvent))[0]? := by
      rw [hbuf]
      exact getElem?_map_some_append A _
    apply drainFrom_stop
    cases h with
    | zero => left; simpa using hg
    | succ h' => right; rw [hg]; simp [List.replicate_succ]
  | cons pe T2' ih =>
    intro A h f s ht hund hretroAll hget hstat hfl htor hbuf hT hf
    simp only [List.length_cons] at hf
    obtain ⟨g', rfl⟩ : ∃ g', f = g' + 3 := ⟨f - 3, by omega⟩
    obtain ⟨hpe1, hpe2, hpe3⟩ := hT pe (List.mem_cons_self pe T2')
    have hget1 : s.captured[A.length + 1]? = some (some (.posEv pe)) := by
      rw [hbuf, getElem?_map_some_append]
      simp
    have hbuf1 : s.captured.set (A.length + 1) none =
        A.map some ++ none :: (none ::
          (T2'.map (fun q => some (.posEv q)) ++ List.replicate h none)) := by
      rw [hbuf, set_map_some_append]
      simp
    have hstep := recapture_step km g' i pe
      { s with captured := s.captured.set (A.length + 1) none } ht
      hund hretroAll hget hstat hfl htor hpe1 (Ne.symm hpe2) hpe3
    rw [show g' + 3 = (g' + 2) + 1 from rfl,
      drainFrom_cons km (g' + 2) (A.length + 1) s (.posEv pe) hget1, hstep]
    obtain ⟨hlen, -⟩ := List.getElem?_eq_some_iff.mp hget
    have hsetl : ∀ a : ActiveHoldTap, (s.holdTaps.set i a)[i]? = some a :=
      fun a => List.getElem?_set_eq_of_lt a hlen
    by_cases hpof : ht.position_of_first_other_key_pressed = -1
    · rw [if_pos hpof]
      have hcapeq : capture_event
          { s with captured := s.captured.set (A.length + 1) none,
                   holdTaps := s.holdTaps.set i ({ ht with position_of_first_other_key_pressed := pe.position }) }
          (.posEv pe) =
        ({ s with holdTaps := s.holdTaps.set i ({ ht with position_of_first_other_key_pressed := pe.position }),
                  captured := (A ++ [CapturedEvent.posEv pe]).map some ++ none ::
                    (T2'.map (fun q => some (.posEv q)) ++ List.replicate h none) }, 0) := by
        unfold capture_event
        dsimp only
        rw [hbuf1, captureList_append_after]
        simp
      dsimp only
      rw [hcapeq]
      obtain ⟨s', hstep', hcap', hdown', hund'⟩ := ih (A ++ [CapturedEvent.posEv pe]) h (g' + 2)
        { s with holdTaps := s.holdTaps.set i ({ ht with position_of_first_other_key_pressed := pe.position }),
                 captured := (A ++ [CapturedEvent.posEv pe]).map some ++ none ::
                   (T2'.map (fun q => some (.posEv q)) ++ List.replicate h none) }
        { ht with position_of_first_other_key_pressed := pe.position }
        (by simp [hund])
        (by
          intro x hx
          rcases List.mem_or_eq_of_mem_set hx with hx' | rfl
          · exact hretroAll x hx'
          · exact hretroAll ht (List.getElem?_mem hget))
        (by simpa using hsetl _)
        (by simpa using hstat)
        (by simpa using hfl)
        (by simpa using htor)
        (by simp)
        (by
          intro q hq
          obtain ⟨h1, h2, h3⟩ := hT q (List.mem_cons_of_mem pe hq)
          exact ⟨h1, by simpa using h2, by simpa using h3⟩)
        (by omega)
      rw [show (A ++ [CapturedEvent.posEv pe]).length + 1 = A.length + 1 + 1
          from by simp] at hstep'
      refine ⟨s', hstep', ?_, ?_, hund'⟩
      · rw [hcap']
        simp
      · rw [hdown']
    · rw [if_neg hpof]
      have hcapeq : capture_event
          { s with captured := s.captured.set (A.length + 1) none }
          (.posEv pe) =
        ({ s with captured := (A ++ [CapturedEvent.posEv pe]).map some ++ none ::
            (T2'.map (fun q => some (.posEv q)) ++ List.replicate h none) }, 0) := by
        unfold capture_event
        dsimp only
        rw [hbuf1, captureList_append_after]
        simp
      dsimp only
      rw [hcapeq]
      obtain ⟨s', hstep', hcap', hdown', hund'⟩ := ih (A ++ [CapturedEvent.posEv pe]) h (g' + 2)
        { s with captured := (A ++ [CapturedEvent.posEv pe]).map some ++ none ::
            (T2'.map (fun q => some (.posEv q)) ++ List.replicate h none) }
        ht
        (by simp [hund])
        (by intro x hx; exact hretroAll x hx)
        (by simpa using hget)
        hstat hfl htor
        (by simp)
        (by
          intro q hq
          exact hT q (List.mem_cons_of_mem pe hq))
        (by omega)
      rw [show (A ++ [CapturedEvent.posEv pe]).length + 1 = A.length + 1 + 1
          from by simp] at hstep'
      refine ⟨s', hstep', ?_, ?_, hund'⟩
      · rw [hcap']
        simp
      · rw [hdown']

/-- `on_hold_tap_binding_pressed` without a quick tap: the fresh hold-tap is
stored undecided with its selected flavor, it becomes the undecided
hold-tap, its timer is scheduled, and nothing else changes. -/
theorem onPressed_no_quick_tap (km : Keymap) (g : Nat) (s : EngineState)
    (pos ts : Int) (cfg : Config) (taps : List ActiveHoldTap) (i : Nat)
    (old : ActiveHoldTap)
    (hund : s.undecided = none)
    (hstore : storeSlot s.holdTaps pos ts cfg = some (taps, i))
    (hold : s.holdTaps[i]? = some old)
    (hqt : ¬(s.last_tapped.timestamp + cfg.require_prior_idle_ms > ts ∨
      (s.last_tapped.position = pos ∧
       s.last_tapped.timestamp + cfg.quick_tap_ms > ts)))
    (hhwu : cfg.hold_while_undecided = false) :
    step km (g + 1) (.onPressed pos ts cfg) s =
      ({ s with
          holdTaps := s.holdTaps.set i
            (freshHoldTap pos ts cfg (select_flavor cfg ts s.last_key)
              old.work_is_cancelled),
          undecided := some i,
          timers := s.timers ++ [i] }, false) := by
  obtain ⟨old', hgetold, -, hset⟩ :=
    storeSlot_eq_set s.holdTaps pos ts cfg taps i hstore
  have holds' : old' = old := by
    rw [hgetold] at hold
    exact Option.some.inj hold
  rw [holds'] at hset
  obtain ⟨hlen, -⟩ := List.getElem?_eq_some_iff.mp hgetold
  have hsetl : ∀ a : ActiveHoldTap, (s.holdTaps.set i a)[i]? = some a :=
    fun a => List.getElem?_set_eq_of_lt a hlen
  have hdec := decide_fst_noop_of_no_transition km g
    { s with
        holdTaps := s.holdTaps.set i
          (freshHoldTap pos ts cfg (select_flavor cfg ts s.last_key)
            old.work_is_cancelled),
        undecided := some i } i
    (freshHoldTap pos ts cfg (select_flavor cfg ts s.last_key)
      old.work_is_cancelled)
    .keyDown (by simpa using hsetl _) rfl rfl (by simp [freshHoldTap, hhwu])
    (flavor_decision_keyDown _)
  simp only [freshHoldTap] at hdec
  simp [step, hund, hstore, hset, hsetl, List.set_set, is_quick_tap_iff,
    hqt, hdec, freshHoldTap]

/-- One layer of event raising: a bubbled position keydown of a hold-tap
key reaches the driver's pressed hook. -/
theorem raiseEv_pos_pressed_unfold (km : Keymap) (g : Nat)
    (s s1 : EngineState) (ev : PositionEvent) (cfg : Config)
    (hpl : step km g (.posListener ev) s = (s1, true))
    (hkm : km ev.position = some cfg)
    (hstate : ev.state = true) :
    step km (g + 1) (.raiseEv (.posEv ev)) s =
      step km g (.onPressed ev.position ev.timestamp cfg)
        { s1 with downstream := s1.downstream ++ [.posEv ev] } := by
  simp [step, hpl, hkm, hstate]

/-- Draining a buffer whose front event is the keydown of a hold-tap key:
the head is re-raised (bubbles downstream and becomes a new undecided
hold-tap), and every remaining captured event is re-captured mid-drain in
exactly its original relative order. -/
theorem recapture_scenario (km : Keymap) (cfg : Config) (pH : PositionEvent)
    (T : List PositionEvent) (h f : Nat) (s : EngineState)
    (taps : List ActiveHoldTap) (i : Nat) (old : ActiveHoldTap)
    (hkm : km pH.position = some cfg)
    (hstate : pH.state = true)
    (hund : s.undecided = none)
    (hretroAll : ∀ x ∈ s.holdTaps, x.config.retro_tap = false)
    (hcfgretro : cfg.retro_tap = false)
    (hbuf : s.captured = some (.posEv pH) ::
      (T.map (fun q => some (.posEv q)) ++ List.replicate h none))
    (hstore : storeSlot s.holdTaps pH.position pH.timestamp cfg = some (taps, i))
    (hold : s.holdTaps[i]? = some old)
    (hqt : ¬(s.last_tapped.timestamp + cfg.require_prior_idle_ms > pH.timestamp ∨
      (s.last_tapped.position = pH.position ∧
       s.last_tapped.timestamp + cfg.quick_tap_ms > pH.timestamp)))
    (hhwu : cfg.hold_while_undecided = false)
    (hfl : flavor_decision (select_flavor cfg pH.timestamp s.last_key)
      .otherKeyDown = none)
    (htor : cfg.hold_trigger_on_release = false)
    (hT : ∀ q ∈ T, q.state = true ∧ q.position ≠ pH.position ∧
      ¬(q.timestamp > pH.timestamp + cfg.tapping_term_ms))
    (hf : 2 * T.length + 6 ≤ f) :
    ∃ s', step km f (.drainFrom 0) s = (s', true) ∧
      s'.downstream = s.downstream ++ [.posEv pH] ∧
      s'.captured = T.map (fun q => some (.posEv q)) ++
        List.replicate (h + 1) none ∧
      s'.undecided = some i := by
  obtain ⟨F, rfl⟩ : ∃ F, f = F + 4 := ⟨f - 4, by omega⟩
  set htNew : ActiveHoldTap := freshHoldTap pH.position pH.timestamp cfg
    (select_flavor cfg pH.timestamp s.last_key) old.work_is_cancelled
    with hhtNew
  have hget0 : s.captured[0]? = some (some (.posEv pH)) := by
    rw [hbuf]; simp
  rw [show F + 4 = (F + 3) + 1 from rfl,
    drainFrom_cons km (F + 3) 0 s (.posEv pH) hget0]
  have hs1cap : s.captured.set 0 none =
      none :: (T.map (fun q => some (.posEv q)) ++ List.replicate h none) := by
    rw [hbuf]; rfl
  have hpl := posListener_bubble_of_no_undecided km (F + 1)
    { s with captured := s.captured.set 0 none } pH hund
  have hsw : update_hold_status_for_retro_tap
      { s with captured := s.captured.set 0 none } pH.position =
      { s with captured := s.captured.set 0 none } := by
    unfold update_hold_status_for_retro_tap
    exact retro_sweep_go_id pH.position _ 0 _ hretroAll
  rw [hsw] at hpl
  have honp := onPressed_no_quick_tap km (F + 1)
    { s with captured := s.captured.set 0 none,
             downstream := s.downstream ++ [CapturedEvent.posEv pH] }
    pH.position pH.timestamp cfg taps i old hund hstore hold hqt hhwu
  have hraise : step km (F + 3) (.raiseEv (.posEv pH))
      { s with captured := s.captured.set 0 none } =
      ({ s with captured := s.captured.set 0 none,
                downstream := s.downstream ++ [CapturedEvent.posEv pH],
                holdTaps := s.holdTaps.set i htNew,
                undecided := some i,
                timers := s.timers ++ [i] }, false) := by
    rw [show F + 3 = (F + 2) + 1 from rfl,
      raiseEv_pos_pressed_unfold km (F + 2)
        { s with captured := s.captured.set 0 none }
        { s with captured := s.captured.set 0 none } pH cfg hpl hkm hstate,
      show F + 2 = (F + 1) + 1 from rfl]
    exact honp
  rw [hraise]
  obtain ⟨s', hstep', hcap', hdown', hund'⟩ := recapture_loop km i T [] h
    (F + 3)
    { s with captured := s.captured.set 0 none,
             downstream := s.downstream ++ [CapturedEvent.posEv pH],
             holdTaps := s.holdTaps.set i htNew,
             undecided := some i,
             timers := s.timers ++ [i] }
    htNew
    rfl
    (by
      intro x hx
      simp only at hx
      rcases List.mem_or_eq_of_mem_set hx with hx' | rfl
      · exact hretroAll x hx'
      · exact hcfgretro)
    (by
      obtain ⟨hlen, -⟩ := List.getElem?_eq_some_iff.mp hold
      simpa using List.getElem?_set_eq_of_lt htNew hlen)
    rfl
    (by simpa [hhtNew, freshHoldTap] using hfl)
    (by simpa [hhtNew, freshHoldTap] using htor)
    (by simpa using hs1cap)
    (by
      intro q hq
      obtain ⟨h1, h2, h3⟩ := hT q hq
      exact ⟨h1, by simpa [hhtNew, freshHoldTap] using h2,
        by simpa [hhtNew, freshHoldTap] using h3⟩)
    (by omega)
  refine ⟨s', by simpa using hstep', ?_, ?_, hund'⟩
  · rw [hdown']
  · rw [hcap']
    simp [List.replicate_succ]

/-- C6: captured events are re-raised in exactly the order captured.
(i) `capture_event` writes into the slot directly after the occupied
prefix, so the buffer preserves arrival order; (ii) with no undecided
hold-tap and no hold-tap behaviors in the keymap,
`release_captured_events` re-raises the occupied run downstream exactly
in capture order (FIFO from the front); (iii) when the drained head is
the keydown of a hold-tap key that becomes a new undecided hold-tap
mid-drain, only that head is delivered downstream and every remaining
captured event is re-captured at the front of the buffer in its original
relative order. -/
theorem captured_replay_fifo :
    (∀ (A : List CapturedEvent) (rest : List (Option CapturedEvent))
        (e : CapturedEvent),
      captureList (A.map some ++ none :: rest) e =
        some (A.map some ++ some e :: rest)) ∧
    (∀ (km : Keymap), (∀ p : Int, km p = none) →
      ∀ (T : List CapturedEvent) (h f : Nat) (s : EngineState),
        s.undecided = none →
        s.captured = T.map some ++ List.replicate h none →
        2 * T.length + 2 ≤ f →
        ∃ s', step km f .releaseCaptured s = (s', true) ∧
          s'.downstream = s.downstream ++ T ∧ s'.undecided = none) ∧
    (∀ (km : Keymap) (cfg : Config) (pH : PositionEvent)
        (T : List PositionEvent) (h f : Nat) (s : EngineState)
        (taps : List ActiveHoldTap) (i : Nat) (old : ActiveHoldTap),
      km pH.position = some cfg →
      pH.state = true →
      s.undecided = none →
      (∀ x ∈ s.holdTaps, x.config.retro_tap = false) →
      cfg.retro_tap = false →
      s.captured = some (.posEv pH) ::
        (T.map (fun q => some (.posEv q)) ++ List.replicate h none) →
      storeSlot s.holdTaps pH.position pH.timestamp cfg = some (taps, i) →
      s.holdTaps[i]? = some old →
      ¬(s.last_tapped.timestamp + cfg.require_prior_idle_ms > pH.timestamp ∨
        (s.last_tapped.position = pH.position ∧
         s.last_tapped.timestamp + cfg.quick_tap_ms > pH.timestamp)) →
      cfg.hold_while_undecided = false →
      flavor_decision (select_flavor cfg pH.timestamp s.last_key)
        .otherKeyDown = none →
      cfg.hold_trigger_on_release = false →
      (∀ q ∈ T, q.state = true ∧ q.position ≠ pH.position ∧
        ¬(q.timestamp > pH.timestamp + cfg.tapping_term_ms)) →
      2 * T.length + 7 ≤ f →
      ∃ s', step km f .releaseCaptured s = (s', true) ∧
        s'.downstream = s.downstream ++ [.posEv pH] ∧
        s'.captured = T.map (fun q => some (.posEv q)) ++
          List.replicate (h + 1) none ∧
        s'.undecided = some i) := by
  refine ⟨captureList_append_after, ?_, ?_⟩
  · intro km hkm T h f s hund hbuf hf
    obtain ⟨g, rfl⟩ : ∃ g, f = g + 1 := ⟨f - 1, by omega⟩
    rw [releaseCaptured_unfold km g s hund]
    exact drain_clears_in_order km hkm T 0 h g s hund (by simpa using hbuf)
      (by omega)
  · intro km cfg pH T h f s taps i old hkm hstate hund hretroAll hcfgretro
      hbuf hstore hold hqt hhwu hfl htor hT hf
    obtain ⟨g, rfl⟩ : ∃ g, f = g + 1 := ⟨f - 1, by omega⟩
    rw [releaseCaptured_unfold km g s hund]
    exact recapture_scenario km cfg pH T h g s taps i old hkm hstate hund
      hretroAll hcfgretro hbuf hstore hold hqt hhwu hfl htor hT (by omega)

/-- The FIFO-replay property at concrete inputs: a capture into a part-full
buffer lands directly after the occupied prefix; draining `sDrainW`
delivers its two captured events downstream in order; draining `sRecap`
re-raises the hold-tap keydown at the head and re-captures the two
other-key keydowns in their original relative order. -/
theorem captured_replay_fifo_witness :
    (captureList ([CapturedEvent.posEv peA].map some ++ none :: [none])
        (CapturedEvent.posEv peB) =
      some ([CapturedEvent.posEv peA].map some ++
        some (CapturedEvent.posEv peB) :: [none])) ∧
    (∃ s', step kmNone 6 .releaseCaptured sDrainW = (s', true) ∧
      s'.downstream = sDrainW.downstream ++
        [CapturedEvent.posEv peA, CapturedEvent.posEv peB] ∧
      s'.undecided = none) ∧
    (∃ s', step kmHT 12 .releaseCaptured sRecap = (s', true) ∧
      s'.downstream = sRecap.downstream ++ [CapturedEvent.posEv peH] ∧
      s'.captured = [peA, peB].map (fun q => some (CapturedEvent.posEv q)) ++
        List.replicate (1 + 1) none ∧
      s'.undecided = some 0) := by
  obtain ⟨h1, h2, h3⟩ := captured_replay_fifo
  refine ⟨h1 [CapturedEvent.posEv peA] [none] (CapturedEvent.posEv peB),
    ?_, ?_⟩
  · exact h2 kmNone (fun _ => rfl)
      [CapturedEvent.posEv peA, CapturedEvent.posEv peB] 0 6 sDrainW rfl rfl
      (by decide)
  · exact h3 kmHT cfgBalanced peH [peA, peB] 1 12 sRecap tapsRecap 0
      (freeSlot cfgBalanced) rfl rfl rfl (by decide) rfl rfl rfl rfl
      (by decide) rfl rfl rfl (by decide) (by decide)

/-- C1: the flavor transition table of `decide_hold_tap`.  Out of UNDECIDED:
HOLD_PREFERRED maps KEY_UP and QUICK_TAP to TAP, OTHER_KEY_DOWN to
HOLD_INTERRUPT, TIMER to HOLD_TIMER and leaves OTHER_KEY_UP undecided;
BALANCED maps KEY_UP and QUICK_TAP to TAP, OTHER_KEY_UP to HOLD_INTERRUPT,
TIMER to HOLD_TIMER and leaves OTHER_KEY_DOWN undecided; TAP_PREFERRED maps
KEY_UP and QUICK_TAP to TAP, TIMER to HOLD_TIMER and leaves both other-key
moments undecided.  Moreover a moment whose table entry is empty leaves the
whole state unchanged, and `decide_hold_tap` on an already-decided hold-tap
never changes anything. -/
theorem flavor_transition_table :
    (flavor_decision .holdPreferred .keyUp = some .tap ∧
     flavor_decision .holdPreferred .quickTap = some .tap ∧
     flavor_decision .holdPreferred .otherKeyDown = some .holdInterrupt ∧
     flavor_decision .holdPreferred .timerEvent = some .holdTimer ∧
     flavor_decision .holdPreferred .otherKeyUp = none ∧
     flavor_decision .balanced .keyUp = some .tap ∧
     flavor_decision .balanced .quickTap = some .tap ∧
     flavor_decision .balanced .otherKeyUp = some .holdInterrupt ∧
     flavor_decision .balanced .timerEvent = some .holdTimer ∧
     flavor_decision .balanced .otherKeyDown = none ∧
     flavor_decision .tapPreferred .keyUp = some .tap ∧
     flavor_decision .tapPreferred .quickTap = some .tap ∧
     flavor_decision .tapPreferred .timerEvent = some .holdTimer ∧
     flavor_decision .tapPreferred .otherKeyDown = none ∧
     flavor_decision .tapPreferred .otherKeyUp = none) ∧
    (∀ (km : Keymap) (f : Nat) (s : EngineState) (i : Nat)
        (ht : ActiveHoldTap) (m : DecisionMoment),
      s.holdTaps[i]? = some ht → ht.status ≠ .undecided →
      step km (f + 1) (.decideHT i m) s = (s, true)) ∧
    (∀ (km : Keymap) (f : Nat) (s : EngineState) (i : Nat)
        (ht : ActiveHoldTap) (m : DecisionMoment),
      s.holdTaps[i]? = some ht → ht.status = .undecided →
      s.undecided = some i →
      ¬(ht.config.hold_while_undecided ∧ m = .keyDown) →
      flavor_decision ht.selected_flavor m = none →
      step km (f + 1) (.decideHT i m) s = (s, true)) := by
  refine ⟨by decide, ?_, ?_⟩
  · intro km f s i ht m hget hstat
    exact decide_noop_of_decided km f s i ht m hget hstat
  · intro km f s i ht m hget hstat hund hnk hfl
    exact decide_noop_of_no_transition km f s i ht m hget hstat hund hnk hfl

/-- Witness for `flavor_transition_table`: the no-op branches at concrete
states (slot 0 already decided; balanced slot 0 fed OTHER_KEY_DOWN). -/
theorem flavor_transition_table_witness :
    step kmNone 1 (.decideHT 0 .keyUp) sDecided = (sDecided, true) ∧
    step kmNone 1 (.decideHT 0 .otherKeyDown) sU = (sU, true) :=
  ⟨flavor_transition_table.2.1 kmNone 0 sDecided 0 { htU with status := .tap }
      .keyUp (by decide) (by decide),
   flavor_transition_table.2.2 kmNone 0 sU 0 htU .otherKeyDown (by decide)
      (by decide) (by decide) (by decide) (by decide)⟩

/-- C2: immediately after the flavor switch transitions a hold-tap out of
UNDECIDED to `st`, the positional override forces TAP exactly when the
trigger list is non-empty, a first other key was recorded, and that key is
not in the list; otherwise the flavor result `st` stands. -/
theorem positional_override (km : Keymap) (f : Nat) (s : EngineState)
    (i : Nat) (ht : ActiveHoldTap) (m : DecisionMoment) (st : Status)
    (hget : s.holdTaps[i]? = some ht) (hstat : ht.status = .undecided)
    (hund : s.undecided = some i)
    (hnk : ¬(ht.config.hold_while_undecided ∧ m = .keyDown))
    (hfl : flavor_decision ht.selected_flavor m = some st)
    (hbuf : s.captured[0]? = none ∨ s.captured[0]? = some none) :
    statusAt (step km (f + 3) (.decideHT i m) s).1 i =
      some (if ht.config.hold_trigger_key_positions.length > 0 ∧
          ht.position_of_first_other_key_pressed ≠ -1 ∧
          ht.position_of_first_other_key_pressed ∉
            ht.config.hold_trigger_key_positions
        then Status.tap else st) := by
  have h := (decide_transition km f s i ht m st hget hstat hund hnk hfl hbuf).1
  simp only [statusAt, h, Option.map_some]
  rw [decide_positional_hold_spec]
  by_cases h1 : ht.config.hold_trigger_key_positions.length > 0 <;>
    by_cases h2 : ht.position_of_first_other_key_pressed = -1 <;>
    by_cases h3 : ht.position_of_first_other_key_pressed ∈
      ht.config.hold_trigger_key_positions <;>
    simp [h1, h2, h3]

/-- Witness for `positional_override`: a hold-preferred hold-tap with
trigger set `[40, 41, 42]` whose first other key 20 is outside the set is
forced to TAP by OTHER_KEY_DOWN. -/
theorem positional_override_witness :
    statusAt (step kmNone 3 (.decideHT 0 .otherKeyDown) sPos).1 0 =
      some .tap := by
  have h := positional_override kmNone 0 sPos 0 htPos
    .otherKeyDown .holdInterrupt (by decide) (by decide) (by decide)
    (by decide) (by decide) (by decide)
  simpa using h

/-- C3: at a hold-tap keydown into a free slot, the key is decided TAP at
the keydown itself (before any timer or other-key event) exactly when the
quick-tap condition of `is_quick_tap` holds: the last-tapped timestamp is
within `require_prior_idle_ms` of this keydown (any position), or the
last-tapped position equals this position and its timestamp is within
`quick_tap_ms`. -/
theorem quick_tap_forces_tap (km : Keymap) (f : Nat) (s : EngineState)
    (pos ts : Int) (cfg : Config) (taps : List ActiveHoldTap) (i : Nat)
    (hund : s.undecided = none)
    (hstore : storeSlot s.holdTaps pos ts cfg = some (taps, i))
    (hbuf : s.captured[0]? = none ∨ s.captured[0]? = some none) :
    statusAt (step km (f + 4) (.onPressed pos ts cfg) s).1 i = some .tap ↔
      (s.last_tapped.timestamp + cfg.require_prior_idle_ms > ts ∨
       (s.last_tapped.position = pos ∧
        s.last_tapped.timestamp + cfg.quick_tap_ms > ts)) := by
  obtain ⟨old, hgetold, holdfree, hset⟩ :=
    storeSlot_eq_set s.holdTaps pos ts cfg taps i hstore
  obtain ⟨hlen, -⟩ := List.getElem?_eq_some_iff.mp hgetold
  have hsetl : ∀ a : ActiveHoldTap, (s.holdTaps.set i a)[i]? = some a :=
    fun a => List.getElem?_set_eq_of_lt a hlen
  rcases hbuf with hb | hb <;>
    by_cases hq : (s.last_tapped.timestamp + cfg.require_prior_idle_ms > ts ∨
      (s.last_tapped.position = pos ∧
       s.last_tapped.timestamp + cfg.quick_tap_ms > ts)) <;>
    by_cases hw : cfg.hold_while_undecided <;>
    simp [step, hund, hstore, hset, hsetl, List.set_set, is_quick_tap_iff,
      flavor_decision_quickTap, flavor_decision_keyDown,
      decide_positional_hold_spec, statusAt, press_binding_holdTaps,
      press_binding_captured, press_binding_undecided, press_hold_binding,
      invoke_binding_set, hq, hw, hb]

/-- Witness for `quick_tap_forces_tap`: last tap at position 10, t = 0;
the same position pressed again at t = 50 with `quick_tap_ms 100` is
decided TAP at keydown. -/
theorem quick_tap_forces_tap_witness :
    statusAt (step kmNone 4 (.onPressed 10 50 cfgQT) sQT).1 0 = some .tap ↔
      (sQT.last_tapped.timestamp + cfgQT.require_prior_idle_ms > 50 ∨
       (sQT.last_tapped.position = 10 ∧
        sQT.last_tapped.timestamp + cfgQT.quick_tap_ms > 50)) :=
  quick_tap_forces_tap kmNone 0 sQT 10 50 cfgQT tapsW 0
    (by decide) (by decide) (by decide)

/-- `capture_event` on a buffer with no free slot stores nothing. -/
theorem captureList_full (buf : List (Option CapturedEvent))
    (e : CapturedEvent) (hfull : ∀ o ∈ buf, o.isSome = true) :
    captureList buf e = none := by
  induction buf with
  | nil => rfl
  | cons o rest ih =>
    cases o with
    | none => simpa using hfull none (List.mem_cons_self none rest)
    | some x =>
      simp only [captureList]
      rw [ih (fun o ho => hfull o (List.mem_cons_of_mem _ ho))]
      rfl

/-- C4 (amended): when the capture buffer is full, `capture_event` stores
nothing and reports `-ENOMEM`, but `position_state_changed_listener`
discards that return value: with an undecided hold-tap present it still
answers `ZMK_EV_EVENT_CAPTURED` (`false`) and leaves the state unchanged, so
the offending event is silently dropped — it is neither stored nor bubbled
downstream. -/
theorem capture_overflow_drops_event :
    (∀ (s : EngineState) (e : CapturedEvent),
      (∀ o ∈ s.captured, o.isSome = true) → capture_event s e = (s, -12)) ∧
    (∀ (km : Keymap) (f : Nat) (s : EngineState) (ev : PositionEvent)
        (i : Nat) (ht : ActiveHoldTap),
      update_hold_status_for_retro_tap s ev.position = s →
      s.undecided = some i → s.holdTaps[i]? = some ht →
      ht.status = .undecided →
      ht.position_of_first_other_key_pressed ≠ -1 →
      ht.position ≠ ev.position →
      ¬(ev.timestamp > ht.timestamp + ht.config.tapping_term_ms) →
      ev.state = true →
      flavor_decision ht.selected_flavor .otherKeyDown = none →
      (∀ o ∈ s.captured, o.isSome = true) →
      step km (f + 1) (.posListener ev) s = (s, false)) := by
  have hcap : ∀ (s : EngineState) (e : CapturedEvent),
      (∀ o ∈ s.captured, o.isSome = true) → capture_event s e = (s, -12) := by
    intro s e hfull
    simp [capture_event, captureList_full s.captured e hfull]
  refine ⟨hcap, ?_⟩
  intro km f s ev i ht hretro hund hget hstat hpof hpos hts hstate hfl hfull
  have hdec : ∀ g, (step km g (.decideHT i .otherKeyDown) s).1 = s := by
    intro g
    cases g with
    | zero => rfl
    | succ g' =>
      rw [decide_noop_of_no_transition km g' s i ht .otherKeyDown hget hstat
        hund (by simp) hfl]
  simp [step, hretro, hund, hget, hpof, hpos, hts, hstate, hfl,
    hcap s (.posEv ev) hfull, hdec]

/-- Witness for `capture_overflow_drops_event` at the full-buffer state. -/
theorem capture_overflow_drops_event_witness :
    step kmNone 1 (.posListener ⟨7, true, 10⟩) sFullBuf = (sFullBuf, false) :=
  capture_overflow_drops_event.2 kmNone 0 sFullBuf ⟨7, true, 10⟩ 0
    { htU with position_of_first_other_key_pressed := 20 }
    (by decide) (by decide) (by decide) (by decide) (by decide) (by decide)
    (by decide) (by decide) (by decide) (by decide)

/-- C4 counterexample: with a full buffer and an undecided balanced
hold-tap, a position keydown at position 7 is answered CAPTURED (`false`)
while the state — buffer, downstream trace, everything — is unchanged, even
though `capture_event` reported `-ENOMEM`: the event neither bubbles
downstream (as the claim states) nor is stored anywhere. -/
theorem capture_overflow_counterexample :
    step kmNone 5 (.posListener ⟨7, true, 10⟩) sFullBuf = (sFullBuf, false) ∧
    (capture_event sFullBuf (.posEv ⟨7, true, 10⟩)).2 = -12 := by decide

/-- C10 (amended): when a hold-tap's own release arrives with a timestamp
strictly past keydown + tapping term while it is still undecided (the timer
never fired), the release handler first decides HOLD_TIMER via the TIMER
moment — so the later KEY_UP moment leaves the status unchanged — and,
provided `retro_tap` is off and the positional override does not apply
(empty trigger list; `hold_while_undecided` off so the press happens at the
decision), the hold bindings, not the tap bindings, are pressed and then
released. -/
theorem release_after_term_decides_hold_timer (km : Keymap) (f : Nat)
    (s : EngineState) (pos ts : Int) (i : Nat) (ht : ActiveHoldTap)
    (hfind : findSlot s.holdTaps pos = some i)
    (hget : s.holdTaps[i]? = some ht)
    (hstat : ht.status = .undecided)
    (hund : s.undecided = some i)
    (hts : ts > ht.timestamp + ht.config.tapping_term_ms)
    (hretro : ht.config.retro_tap = false)
    (htrig : ht.config.hold_trigger_key_positions = [])
    (hhwu : ht.config.hold_while_undecided = false)
    (hbuf : s.captured[0]? = none ∨ s.captured[0]? = some none) :
    statusAt (step km (f + 3) (.decideHT i .timerEvent) s).1 i =
      some .holdTimer ∧
    (step km (f + 4) (.onReleased pos ts) s).1.invocations =
      s.invocations ++
        ht.config.hold_bindings.map
          (fun b => ⟨b, ht.position, ht.timestamp, true⟩) ++
        ht.config.hold_bindings.map
          (fun b => ⟨b, ht.position, ht.timestamp, false⟩) := by
  obtain ⟨hlen, -⟩ := List.getElem?_eq_some_iff.mp hget
  have hsetl : ∀ a : ActiveHoldTap, (s.holdTaps.set i a)[i]? = some a :=
    fun a => List.getElem?_set_eq_of_lt a hlen
  constructor
  · have h := (decide_transition km f s i ht .timerEvent .holdTimer hget hstat
      hund (by simp) (flavor_decision_timerEvent _) hbuf).1
    simp [statusAt, h, decide_positional_hold_spec, htrig]
  · rcases hbuf with hb | hb <;>
      simp [step, hfind, hget, hstat, hund, hts, hretro, htrig, hhwu, hsetl,
        List.set_set, flavor_decision_timerEvent, decide_positional_hold_spec,
        press_binding, release_binding, press_hold_binding,
        release_hold_binding, decide_retro_tap, clear_hold_tap,
        invoke_binding_set, hb]

/-- Witness for `release_after_term_decides_hold_timer`: `htU` (balanced,
term 200, keydown t = 0) released at t = 300. -/
theorem release_after_term_decides_hold_timer_witness :
    statusAt (step kmNone 3 (.decideHT 0 .timerEvent) sU).1 0 =
      some .holdTimer ∧
    (step kmNone 4 (.onReleased 5 300) sU).1.invocations =
      sU.invocations ++
        htU.config.hold_bindings.map (fun b => ⟨b, htU.position, htU.timestamp, true⟩) ++
        htU.config.hold_bindings.map (fun b => ⟨b, htU.position, htU.timestamp, false⟩) :=
  release_after_term_decides_hold_timer kmNone 0 sU 5 300 0 htU
    (by decide) (by decide) (by decide) (by decide) (by decide) (by decide)
    (by decide) (by decide) (by decide)

/-- C10 counterexample: the same late release on a `retro_tap` hold-tap
presses and releases the *tap* bindings (binding 1), not the hold bindings
(binding 2): after the TIMER decision at release, `decide_retro_tap`
re-interprets the never-interrupting hold as a tap. -/
theorem release_after_term_retro_counterexample :
    retroReleaseRun.invocations = [⟨1, 10, 0, true⟩, ⟨1, 10, 0, false⟩] ∧
    retroReleaseRun.invocations ≠ [⟨2, 10, 0, true⟩, ⟨2, 10, 0, false⟩] := by
  decide

/-- C5: if a hold-tap binding press arrives while another hold-tap is still
undecided, the invocation is swallowed (`ZMK_BEHAVIOR_OPAQUE`, modelled as
`false`) and the engine state is completely unchanged: nothing is stored, no
flavor is selected, no timer is scheduled, and the existing undecided
hold-tap is untouched. -/
theorem single_undecided_invariant (km : Keymap) (f : Nat) (s : EngineState)
    (pos ts : Int) (cfg : Config) (j : Nat) (h : s.undecided = some j) :
    step km (f + 1) (.onPressed pos ts cfg) s = (s, false) := by
  simp [step, h]

/-- Witness for `single_undecided_invariant` at a concrete state. -/
theorem single_undecided_invariant_witness :
    step kmNone 1 (.onPressed 10 0 cfgBalanced) sU = (sU, false) :=
  single_undecided_invariant kmNone 0 sU 10 0 cfgBalanced 0 (by decide)

/-- C8 (amended): in the pure-tap scenario (balanced, tapping-term 200,
down at position 10 t = 0, up at t = 50) the engine presses and then
releases the tap bindings, and both invocations carry the hold-tap's
keydown timestamp 0 (the original `(position, timestamp)` of the event). -/
theorem pure_tap_scenario :
    pureTapRun.invocations =
      [⟨1, 10, 0, true⟩, ⟨1, 10, 0, false⟩] := by decide

/-- C8 counterexample: the two tap invocations do not carry timestamp 50 as
the claim states; they carry the keydown timestamp 0. -/
theorem pure_tap_timestamp_counterexample :
    pureTapRun.invocations ≠ [⟨1, 10, 50, true⟩, ⟨1, 10, 50, false⟩] ∧
    pureTapRun.invocations = [⟨1, 10, 0, true⟩, ⟨1, 10, 0, false⟩] := by decide

/-- C7 counterexample: press a hold-tap at t = 0, let a non-modifier keycode
event at t = 50 update `last_tapped` to 50 while it is undecided, then
release the hold-tap at t = 100: the TAP decision stores the keydown
timestamp 0, strictly decreasing `last_tapped.timestamp`. -/
theorem last_tapped_decrease_counterexample :
    sAfterKeycode.last_tapped.timestamp = 50 ∧
    (runOp kmNone 20 sAfterKeycode (.htReleased 10 100)).last_tapped.timestamp = 0 ∧
    (runOp kmNone 20 sAfterKeycode (.htReleased 10 100)).last_tapped.timestamp <
      sAfterKeycode.last_tapped.timestamp := by decide

/-- C7 (amended): the keycode-event path `store_last_tapped` never decreases
`last_tapped.timestamp`; the tap-decision path `press_tap_binding`
unconditionally rewrites `last_tapped` to the hold-tap's keydown
`(position, timestamp)`, which is what can decrease it. -/
theorem last_tapped_updates_characterized :
    (∀ lt ts, lt.timestamp ≤ (store_last_tapped lt ts).timestamp) ∧
    (∀ s ht, (press_tap_binding s ht).last_tapped =
      ⟨ht.position, ht.timestamp⟩) := by
  constructor
  · intro lt ts
    simp only [store_last_tapped]
    split
    · next h => exact le_of_lt h
    · exact le_refl _
  · intro s ht
    rfl

end CHT

namespace Magic

/-- C9 counterexample: with last key X (not in the PRIMARY mapping, so the
mapping yields the "repeat previous" sentinel), remembered modifiers 2
(shift) and no currently active modifiers, the handler emits X with the
*current* modifiers 0, not with the remembered modifiers 2. -/
theorem repeat_mods_counterexample :
    handle_magic_tap get_alt_repeat_key_keycode_user magic_record_string
        BASE_PRIMARY KC_X 2 0 = [.tapCode16 KC_X 0] ∧
    handle_magic_tap get_alt_repeat_key_keycode_user magic_record_string
        BASE_PRIMARY KC_X 2 0 ≠ [.tapCode16 KC_X 2] := by decide

/-- C9 (amended): when the per-layer mapping yields the "repeat previous"
sentinel `QK_REP` (and the macro processor does not consume it), the handler
emits `last_key` via `tap_code16` under the currently active modifiers; the
remembered modifiers are passed to the mapping but are not applied to the
emission. -/
theorem repeat_emits_current_mods (amap : Nat → Nat → Nat → Nat)
    (pmr : Nat → Option String) (base_layer last_raw last_mods cur_mods : Nat)
    (hmap : amap (unwrap_tap_keycode last_raw) last_mods base_layer = QK_REP)
    (hpmr : pmr QK_REP = none) :
    handle_magic_tap amap pmr base_layer last_raw last_mods cur_mods =
      [.tapCode16 (unwrap_tap_keycode last_raw) cur_mods] := by
  simp [handle_magic_tap, hmap, hpmr]

/-- Witness for `repeat_emits_current_mods` on the lily58 mapping. -/
theorem repeat_emits_current_mods_witness :
    handle_magic_tap get_alt_repeat_key_keycode_user magic_record_string
      BASE_PRIMARY KC_X 2 7 = [.tapCode16 (unwrap_tap_keycode KC_X) 7] :=
  repeat_emits_current_mods get_alt_repeat_key_keycode_user
    magic_record_string BASE_PRIMARY KC_X 2 7 (by decide) (by decide)

end Magic
